import Mathlib

/-!
Shallow embedding of the Netwalk puzzle engine (src/index.tsx) and proofs
about its generation, connectivity-evaluation, win-verification, hint and
rotation operations.

Conventions of the embedding:
* JavaScript numbers used as array indices and coordinates are modelled as
  `Int` (offsets can be negative); indices into concrete lists go through
  `Int.toNat` only after the source's own bounds guards have passed.
* Each call `Math.floor(Math.random() * k)` is modelled as `rng i % k` for a
  stream `rng : Nat → Nat` and a running draw counter `i`; quantifying over
  all `rng` quantifies over every possible outcome of the random choices.
* The two unbounded `while` loops of the source (the generation walk and the
  evaluator's BFS) are modelled with an explicit fuel parameter that provably
  dominates the number of iterations the source loop performs, so the model
  computes the same final state as the source loop.
-/

namespace Netwalk

set_option maxRecDepth 1000000

/-- Tile kinds, mirroring `enum TileType` of the source. -/
inductive TileType where
  | TERMINAL
  | STRAIGHT
  | CORNER
  | T_JUNCTION
  | CROSS
deriving DecidableEq

/-- One grid cell, mirroring `interface Tile` of the source. -/
structure Tile where
  type : TileType
  rotation : Nat
  connected : Bool
  isServer : Bool
deriving DecidableEq

instance : Inhabited Tile := ⟨⟨.TERMINAL, 0, false, false⟩⟩

/-- A grid is a row-major matrix of tiles, mirroring `type Grid = Tile[][]`. -/
abbrev Grid := List (List Tile)

/-- A coordinate pair, mirroring `type Coords = { r; c }`. Components are
`Int` because the source computes neighbor coordinates that may be `-1` or
`size` before bounds checks or wrapping. -/
structure Coords where
  r : Int
  c : Int
deriving DecidableEq

instance : Inhabited Coords := ⟨⟨0, 0⟩⟩

/-- The four compass directions of the `DIRECTIONS` table. -/
inductive Dir where
  | N
  | E
  | S
  | W
deriving DecidableEq

instance : Inhabited Dir := ⟨.N⟩

/-- Iteration order of `for (const key in DIRECTIONS)` in the source. -/
def DIRECTIONS : List Dir := [.N, .E, .S, .W]

/-- Row offset of a direction (`dir.r`). -/
def Dir.dr : Dir → Int
  | .N => -1
  | .E => 0
  | .S => 1
  | .W => 0

/-- Column offset of a direction (`dir.c`). -/
def Dir.dc : Dir → Int
  | .N => 0
  | .E => 1
  | .S => 0
  | .W => -1

/-- Bit mask of a direction (`dir.mask`). -/
def Dir.mask : Dir → Nat
  | .N => 1
  | .E => 2
  | .S => 4
  | .W => 8

/-- Opposite direction; `DIRECTIONS[dir.from]` in the source, so
`d.opp.mask` is the source's `fromMask`. -/
def Dir.opp : Dir → Dir
  | .N => .S
  | .E => .W
  | .S => .N
  | .W => .E

/-- The `TILE_CONNECTIONS` table: for each tile kind the connection mask at
each of the four rotation steps. -/
def TILE_CONNECTIONS : TileType → List Nat
  | .TERMINAL => [1, 2, 4, 8]
  | .STRAIGHT => [5, 10, 5, 10]
  | .CORNER => [3, 6, 12, 9]
  | .T_JUNCTION => [7, 14, 13, 11]
  | .CROSS => [15, 15, 15, 15]

/-- Current connection mask of a tile: `TILE_CONNECTIONS[tile.type][tile.rotation]`.
A rotation outside 0..3 yields `undefined` in the source, and every bitwise
test `undefined & mask` then evaluates to `0`; `getD _ 0` models exactly that. -/
def connectionsOf (tile : Tile) : Nat :=
  (TILE_CONNECTIONS tile.type).getD tile.rotation 0

/-- Coordinate after adding a direction offset, before any wrapping:
`nr = r + dir.r; nc = c + dir.c`. -/
def rawNext (p : Coords) (d : Dir) : Coords :=
  ⟨p.r + d.dr, p.c + d.dc⟩

/-- The wrapping adjustment `(x + size) % size` done when `isWrapping`. -/
def wrapCoord (size : Nat) (x : Int) : Int :=
  (x + size) % size

/-- Neighbor coordinate as the source computes it: offset, then wrap both
components when `isWrapping` is set. -/
def topoNext (isWrapping : Bool) (size : Nat) (p : Coords) (d : Dir) : Coords :=
  let q := rawNext p d
  if isWrapping then ⟨wrapCoord size q.r, wrapCoord size q.c⟩ else q

/-- Bounds predicate `0 <= r < size && 0 <= c < size`. -/
abbrev inRange (size : Nat) (p : Coords) : Prop :=
  0 ≤ p.r ∧ p.r < (size : Int) ∧ 0 ≤ p.c ∧ p.c < (size : Int)

/-- The source's neighbor guard `isWrapping || (nr >= 0 && nr < size && nc >= 0 && nc < size)`,
evaluated on the post-wrap coordinate (when not wrapping, the post-wrap
coordinate is the raw one, as in the source). -/
abbrev topoOk (isWrapping : Bool) (size : Nat) (q : Coords) : Prop :=
  isWrapping = true ∨ inRange size q

/-- Generic matrix read `m[r][c]` with a default for out-of-range indices. -/
def getM {α : Type} (m : List (List α)) (d : α) (r c : Int) : α :=
  (m.getD r.toNat []).getD c.toNat d

/-- Generic functional matrix update `m[r][c] = v`. -/
def setM {α : Type} (m : List (List α)) (r c : Int) (v : α) : List (List α) :=
  m.set r.toNat ((m.getD r.toNat []).set c.toNat v)

/-- Total cell lookup `grid[r][c]`; out-of-range reads never occur behind the
source's guards, so the default value is irrelevant wherever this is used. -/
def get2d (g : Grid) (r c : Int) : Tile :=
  getM g default r c

/-- Optional cell lookup `grid[r]?.[c]`, `none` when either index misses. -/
def get2d? (g : Grid) (r c : Int) : Option Tile :=
  if r < 0 ∨ c < 0 then none
  else match g[r.toNat]? with
    | none => none
    | some row => row[c.toNat]?

/-- Lookup in an integer matrix such as `connections` or `solution`. -/
def getC (m : List (List Nat)) (r c : Int) : Nat :=
  getM m 0 r c

/-- Lookup in the boolean `visited` matrix. -/
def getV (m : List (List Bool)) (r c : Int) : Bool :=
  getM m false r c

/-- Functional update `m[r][c] = v` of an integer matrix. -/
def setC (m : List (List Nat)) (r c : Int) (v : Nat) : List (List Nat) :=
  setM m r c v

/-- Functional update `m[r][c] = v` of a boolean matrix. -/
def setV (m : List (List Bool)) (r c : Int) (v : Bool) : List (List Bool) :=
  setM m r c v

/-- Functional update setting one tile's `rotation`, modelling the source's
copy-then-mutate `newGrid[r][c].rotation = rot`. -/
def setRotation (g : Grid) (r c : Int) (rot : Nat) : Grid :=
  g.set r.toNat
    ((g.getD r.toNat []).set c.toNat { get2d g r c with rotation := rot })

/-- Flattened list of all tiles, `grid.flat()`. -/
def flatGrid (g : Grid) : List Tile :=
  g.foldr (fun row acc => row ++ acc) []

/-- Number of connected tiles, `grid.flat().filter(t => t.connected).length`. -/
def countConnected (g : Grid) : Nat :=
  ((flatGrid g).filter (fun t => t.connected)).length

/-! ### Connectivity Evaluator (`checkConnectivity`, lines 381-421) -/

/-- State of the evaluator's BFS loop: the work `queue`, the `visited` set and
the `connectedSet`, all kept as lists of coordinates (the source keys its sets
by the string representation of the coordinates, which is injective). -/
structure BfsState where
  queue : List Coords
  visited : List Coords
  connectedSet : List Coords
deriving DecidableEq

/-- Body of the inner `for (const key in DIRECTIONS)` loop of the BFS: given
the dequeued cell `p` and its mask `conns`, possibly enqueue the neighbor in
direction `d` and mark it visited. -/
def bfsDir (grid : Grid) (size : Nat) (isWrapping : Bool) (p : Coords) (conns : Nat)
    (qv : List Coords × List Coords) (d : Dir) : List Coords × List Coords :=
  if conns &&& d.mask ≠ 0 then
    let q := topoNext isWrapping size p d
    if topoOk isWrapping size q ∧ q ∉ qv.2 then
      if connectionsOf (get2d grid q.r q.c) &&& d.opp.mask ≠ 0 then
        (qv.1 ++ [q], q :: qv.2)
      else qv
    else qv
  else qv

/-- One `while (queue.length > 0)` iteration plus recursion, with fuel. -/
def bfsLoop (grid : Grid) (size : Nat) (isWrapping : Bool) :
    Nat → BfsState → BfsState
  | 0, s => s
  | fuel + 1, s =>
    match s.queue with
    | [] => s
    | p :: rest =>
      let conns := connectionsOf (get2d grid p.r p.c)
      let qv := DIRECTIONS.foldl (bfsDir grid size isWrapping p conns) (rest, s.visited)
      bfsLoop grid size isWrapping fuel ⟨qv.1, qv.2, p :: s.connectedSet⟩

/-- Fuel that provably dominates the BFS iteration count (each iteration
dequeues one cell and every cell is enqueued at most once). -/
def bfsFuel (size : Nat) : Nat := size * size + 1

/-- Write the `connected` flags of one grid row from the connected set,
mirroring the source's final
`grid.map((row, r) => row.map((tile, c) => ({...tile, connected: connectedSet.has(...)})))`. -/
def setConnectedRow (cs : List Coords) (r : Int) : Int → List Tile → List Tile
  | _, [] => []
  | c, t :: rest =>
    { t with connected := decide ((⟨r, c⟩ : Coords) ∈ cs) } :: setConnectedRow cs r (c + 1) rest

/-- Write the `connected` flags of the whole grid from the connected set. -/
def setConnectedGrid (cs : List Coords) : Int → Grid → Grid
  | _, [] => []
  | r, row :: rest => setConnectedRow cs r 0 row :: setConnectedGrid cs (r + 1) rest

/-- The Connectivity Evaluator `checkConnectivity(grid, serverCoords, isWrapping)`:
BFS from the server with the mutual-agreement rule, then a functional update of
every `connected` flag. -/
def checkConnectivity (grid : Grid) (serverCoords : Coords) (isWrapping : Bool) : Grid :=
  let size := grid.length
  let final := bfsLoop grid size isWrapping (bfsFuel size)
    ⟨[serverCoords], [serverCoords], []⟩
  setConnectedGrid final.connectedSet 0 grid

/-! ### Generator (`generateGrid`, lines 257-379) -/

/-- State of the spanning-walk loop: the `connections` mask matrix, the
`visited` matrix, the explicit `stack` (head of the list is the top of the
source's array stack) and the next random-draw index. -/
structure WalkState where
  connections : List (List Nat)
  visited : List (List Bool)
  stack : List Coords
  idx : Nat
deriving DecidableEq

/-- The unvisited-neighbor candidates of cell `p`, in `DIRECTIONS` order,
mirroring the `neighbors` array built by the walk (each entry carries the
post-wrap coordinate and the direction, from which the source's `mask` and
`fromMask` are `d.mask` and `d.opp.mask`). -/
def walkNeighbors (isWrapping : Bool) (size : Nat) (visited : List (List Bool))
    (p : Coords) : List (Coords × Dir) :=
  DIRECTIONS.filterMap fun d =>
    let q := topoNext isWrapping size p d
    if topoOk isWrapping size q ∧ ¬(getV visited q.r q.c = true) then some (q, d) else none

/-- Record the reciprocal connection bits for the step from `p` to `q` in
direction `d`:
`connections[r][c] |= mask; connections[nr][nc] |= fromMask`. -/
def addEdge (conns : List (List Nat)) (p q : Coords) (d : Dir) : List (List Nat) :=
  let c1 := setC conns p.r p.c (getC conns p.r p.c ||| d.mask)
  setC c1 q.r q.c (getC c1 q.r q.c ||| d.opp.mask)

/-- The `while (stack.length > 0)` spanning-walk loop, with fuel. -/
def walkLoop (isWrapping : Bool) (size : Nat) (rng : Nat → Nat) :
    Nat → WalkState → WalkState
  | 0, s => s
  | fuel + 1, s =>
    match s.stack with
    | [] => s
    | p :: rest =>
      let ns := walkNeighbors isWrapping size s.visited p
      if ns.isEmpty then
        walkLoop isWrapping size rng fuel { s with stack := rest }
      else
        let pick := ns.getD (rng s.idx % ns.length) default
        walkLoop isWrapping size rng fuel
          { connections := addEdge s.connections p pick.1 pick.2
            visited := setV s.visited pick.1.r pick.1.c true
            stack := pick.1 :: p :: rest
            idx := s.idx + 1 }

/-- Fuel that provably dominates the walk's iteration count. -/
def walkFuel (size : Nat) : Nat := (size * size + 1) * (size * size) + 1

/-- Run the spanning walk from a random start cell; draws `rng 0`, `rng 1`
for the start coordinates, later draws pick neighbors. -/
def runWalk (isWrapping : Bool) (size : Nat) (rng : Nat → Nat) : WalkState :=
  let startR : Int := (rng 0 % size : Nat)
  let startC : Int := (rng 1 % size : Nat)
  walkLoop isWrapping size rng (walkFuel size)
    { connections := List.replicate size (List.replicate size 0)
      visited := setV (List.replicate size (List.replicate size false)) startR startC true
      stack := [⟨startR, startC⟩]
      idx := 2 }

/-- The start cell drawn by `runWalk`: `Math.floor(Math.random()*size)` twice. -/
def walkStart (size : Nat) (rng : Nat → Nat) : Coords :=
  ⟨((rng 0 % size : Nat) : Int), ((rng 1 % size : Nat) : Int)⟩

/-- One round of the densification loop (step 1.5 of the source): pick a
random cell, a random direction whose bit is unset there, and add the
reciprocal pair when the neighbor is in bounds. Returns the updated matrix
and the next draw index. -/
def densifyRound (isWrapping : Bool) (size : Nat) (rng : Nat → Nat)
    (conns : List (List Nat)) (i : Nat) : List (List Nat) × Nat :=
  let r : Int := (rng i % size : Nat)
  let c : Int := (rng (i + 1) % size : Nat)
  let pot := DIRECTIONS.filter fun d => getC conns r c &&& d.mask = 0
  if pot.isEmpty then (conns, i + 2)
  else
    let d := pot.getD (rng (i + 2) % pot.length) default
    let q := topoNext isWrapping size ⟨r, c⟩ d
    if topoOk isWrapping size q then (addEdge conns ⟨r, c⟩ q d, i + 3)
    else (conns, i + 3)

/-- The `for (let i = 0; i < extraConnections; i++)` densification loop. -/
def densifyLoop (isWrapping : Bool) (size : Nat) (rng : Nat → Nat) :
    Nat → List (List Nat) × Nat → List (List Nat) × Nat
  | 0, st => st
  | n + 1, st => densifyLoop isWrapping size rng n (densifyRound isWrapping size rng st.1 st.2)

/-- The densification round count `Math.floor(size * size * 0.4)`; for every
grid side length this equals `size * size * 4 / 10` in exact arithmetic. -/
def extraConnections (size : Nat) : Nat := size * size * 4 / 10

/-- Popcount of a 4-bit mask; the source computes
`conn.toString(2).split('1').length - 1`, the number of ones in the binary
representation, and every generated mask fits in 4 bits. -/
def numConnections (conn : Nat) : Nat :=
  (conn &&& 1) + (conn >>> 1 &&& 1) + (conn >>> 2 &&& 1) + (conn >>> 3 &&& 1)

/-- Tile kind chosen from a generation mask (step 2 of the source). -/
def typeOfMask (conn : Nat) : TileType :=
  let n := numConnections conn
  if n = 1 then .TERMINAL
  else if n = 2 then (if conn = 5 ∨ conn = 10 then .STRAIGHT else .CORNER)
  else if n = 3 then .T_JUNCTION
  else if n = 4 then .CROSS
  else .TERMINAL

/-- Solved rotation chosen from a generation mask:
`targetRotations.indexOf(conn)` with the `-1 → 0` defensive fallback. -/
def rotOfMask (t : TileType) (conn : Nat) : Nat :=
  if (TILE_CONNECTIONS t).contains conn then (TILE_CONNECTIONS t).indexOf conn else 0

/-- Solved pair (kind, rotation) of one cell. -/
structure SolvedTile where
  type : TileType
  rotation : Nat
deriving DecidableEq

/-- The solved grid derived from the connection masks. -/
def solvedGridOf (conns : List (List Nat)) : List (List SolvedTile) :=
  conns.map fun row => row.map fun conn => ⟨typeOfMask conn, rotOfMask (typeOfMask conn) conn⟩

/-- Terminal coordinates of one row of masks, collected left to right. -/
def terminalsRow (r : Int) : Int → List Nat → List Coords
  | _, [] => []
  | c, conn :: rest =>
    (if numConnections conn = 1 then [⟨r, c⟩] else []) ++ terminalsRow r (c + 1) rest

/-- Terminal coordinates of the mask matrix in row-major order, mirroring the
`terminals.push({r, c})` side effect of step 2. -/
def terminalsOf : Int → List (List Nat) → List Coords
  | _, [] => []
  | r, row :: rest => terminalsRow r 0 row ++ terminalsOf (r + 1) rest

/-- Solution rotation matrix `solvedGrid.map(row => row.map(tile => tile.rotation))`. -/
def solutionOf (sg : List (List SolvedTile)) : List (List Nat) :=
  sg.map fun row => row.map fun st => st.rotation

/-- Server coordinate `allCoords[k]` where `allCoords` enumerates all cells in
row-major order. -/
def serverOf (size : Nat) (k : Nat) : Coords := ⟨(k / size : Nat), (k % size : Nat)⟩

/-- Scramble one row (step 4): the server keeps its solved rotation and draws
nothing; every other tile draws a random rotation in 0..3. -/
def scrambleRow (rng : Nat → Nat) (server : Coords) (r : Int) :
    Int → Nat → List SolvedTile → List Tile × Nat
  | _, i, [] => ([], i)
  | c, i, st :: rest =>
    if server.r = r ∧ server.c = c then
      let t : Tile := ⟨st.type, st.rotation, false, true⟩
      let rec0 := scrambleRow rng server r (c + 1) i rest
      (t :: rec0.1, rec0.2)
    else
      let t : Tile := ⟨st.type, rng i % 4, false, false⟩
      let rec0 := scrambleRow rng server r (c + 1) (i + 1) rest
      (t :: rec0.1, rec0.2)

/-- Scramble the whole solved grid in row-major order. -/
def scrambleGrid (rng : Nat → Nat) (server : Coords) :
    Int → Nat → List (List SolvedTile) → Grid × Nat
  | _, i, [] => ([], i)
  | r, i, row :: rest =>
    let rowRes := scrambleRow rng server r 0 i row
    let rec0 := scrambleGrid rng server (r + 1) rowRes.2 rest
    (rowRes.1 :: rec0.1, rec0.2)

/-- Result quadruple of `generateGrid`. -/
structure GenResult where
  grid : Grid
  solution : List (List Nat)
  serverCoords : Coords
  terminals : List Coords
deriving DecidableEq

/-- The Generator `generateGrid(size, isWrapping)` (first copy, lines 257-379):
spanning walk, densification, typing, server pick, scramble. -/
def generateGrid (size : Nat) (isWrapping : Bool) (rng : Nat → Nat) : GenResult :=
  let ws := runWalk isWrapping size rng
  let dres := densifyLoop isWrapping size rng (extraConnections size) (ws.connections, ws.idx)
  let conns := dres.1
  let sg := solvedGridOf conns
  let terminals := terminalsOf 0 conns
  let server := serverOf size (rng dres.2 % (size * size))
  let solution := solutionOf sg
  let grid := (scrambleGrid rng server 0 (dres.2 + 1) sg).1
  ⟨grid, solution, server, terminals⟩

/-- The second Generator copy (lines 1131-1220), which has no densification
step; otherwise line for line the same algorithm. -/
def generateGrid2 (size : Nat) (isWrapping : Bool) (rng : Nat → Nat) : GenResult :=
  let ws := runWalk isWrapping size rng
  let conns := ws.connections
  let sg := solvedGridOf conns
  let terminals := terminalsOf 0 conns
  let server := serverOf size (rng ws.idx % (size * size))
  let solution := solutionOf sg
  let grid := (scrambleGrid rng server 0 (ws.idx + 1) sg).1
  ⟨grid, solution, server, terminals⟩

/-- The second Connectivity Evaluator copy (lines 1222-1262), textually
identical to the first. -/
def checkConnectivity2 (grid : Grid) (serverCoords : Coords) (isWrapping : Bool) : Grid :=
  let size := grid.length
  let final := bfsLoop grid size isWrapping (bfsFuel size)
    ⟨[serverCoords], [serverCoords], []⟩
  setConnectedGrid final.connectedSet 0 grid

/-! ### Win Verifier (`isWinConditionMet`, lines 569-631) -/

/-- Leak check of one cell (condition 2 of the win check): a `connected` tile
must not expose a bit off-grid in bounded mode, toward an unpowered tile, or
toward a tile that does not reciprocate. -/
def noLeakCell (grid : Grid) (size : Nat) (isWrapping : Bool) (r c : Int) : Bool :=
  let tile := get2d grid r c
  if tile.connected = false then true
  else
    DIRECTIONS.all fun d =>
      if connectionsOf tile &&& d.mask ≠ 0 then
        if isWrapping = false ∧ ¬inRange size (rawNext ⟨r, c⟩ d) then false
        else
          let q := topoNext isWrapping size ⟨r, c⟩ d
          let neighbor := get2d grid q.r q.c
          if neighbor.connected = false then false
          else decide (connectionsOf neighbor &&& d.opp.mask ≠ 0)
      else true

/-- Condition 2 of the win check over the whole grid: the double `for` loop
with early `return false`. -/
def noLeakCheck (grid : Grid) (size : Nat) (isWrapping : Bool) : Bool :=
  (List.range size).all fun r =>
    (List.range size).all fun c => noLeakCell grid size isWrapping r c

/-- The Win Verifier `isWinConditionMet` (lines 569-631): coverage of the
required tiles (all terminals, or every tile when there are none) plus the
no-leak re-check. `grid[t.r]?.[t.c]?.connected` is optional chaining, false
when the lookup misses. -/
def isWinConditionMet (grid : Grid) (terminals : List Coords) (isWrapping : Bool) : Bool :=
  let size := grid.length
  let allRequiredTilesConnected :=
    if terminals.length > 0 then
      terminals.all fun t =>
        match get2d? grid t.r t.c with
        | some tile => tile.connected
        | none => false
    else (flatGrid grid).all fun t => t.connected
  allRequiredTilesConnected && noLeakCheck grid size isWrapping

/-! ### Rotation (`rotateTile`, lines 535-563) -/

/-- The rotation request handler `rotateTile(r, c)` (lines 535-563), reduced
to its grid effect: missing tile, a won game, or the server tile exits before
any state change; otherwise one tile's rotation advances by a quarter turn and
the evaluator reruns. -/
def rotateTile (grid : Grid) (isWon : Bool) (serverCoords : Coords) (isWrapping : Bool)
    (r c : Int) : Grid :=
  match get2d? grid r c with
  | none => grid
  | some tile =>
    if isWon || tile.isServer then grid
    else
      let newGrid := setRotation grid r c ((tile.rotation + 1) % 4)
      checkConnectivity newGrid serverCoords isWrapping

/-! ### Hint Advisor (`handleHintClick`, lines 761-834) -/

/-- The `incorrectTiles` list: non-server cells whose rotation differs from
the recorded solution, in row-major scan order. -/
def incorrectTilesOf (grid : Grid) (solution : List (List Nat)) (gridSize : Nat) :
    List Coords :=
  ((List.range gridSize).map fun r =>
    (List.range gridSize).filterMap fun c =>
      let p : Coords := ⟨(r : Int), (c : Int)⟩
      if (get2d grid p.r p.c).isServer = false ∧
          (get2d grid p.r p.c).rotation ≠ getC solution p.r p.c
      then some p else none).flatten

/-- Gain of correcting one candidate: connected count after simulating the
correction minus the count before (`newConnections` in the source). -/
def hintGain (grid : Grid) (solution : List (List Nat)) (server : Coords)
    (isWrapping : Bool) (prev : Nat) (p : Coords) : Int :=
  let tempGrid := setRotation grid p.r p.c (getC solution p.r p.c)
  let gridAfterHint := checkConnectivity tempGrid server isWrapping
  (countConnected gridAfterHint : Int) - (prev : Int)

/-- The `bestHint` fold over the incorrect tiles, starting from
`{coords: null, maxNewConnections: -1}` and keeping strict improvements. -/
def bestHintFold (grid : Grid) (solution : List (List Nat)) (server : Coords)
    (isWrapping : Bool) (prev : Nat) (incorrect : List Coords) : Option Coords × Int :=
  incorrect.foldl
    (fun acc p =>
      let g := hintGain grid solution server isWrapping prev p
      if g > acc.2 then (some p, g) else acc)
    (none, -1)

/-- The fallback's adjacency test: some direction leads (within bounds, or
wrapped) to a currently connected tile. -/
def isAdjacentToNetwork (grid : Grid) (gridSize : Nat) (isWrapping : Bool)
    (p : Coords) : Bool :=
  DIRECTIONS.any fun d =>
    let q := topoNext isWrapping gridSize p d
    decide (topoOk isWrapping gridSize q) && (get2d grid q.r q.c).connected

/-- Hint target selection of `handleHintClick` (lines 768-821), the pure part
reached when the game is not yet won: `none` when nothing is incorrect,
otherwise the best positive-gain candidate, or the fallback (first incorrect
tile adjacent to the network, else the first incorrect tile). -/
def hintTarget (grid : Grid) (solution : List (List Nat)) (gridSize : Nat)
    (server : Coords) (isWrapping : Bool) : Option Coords :=
  let incorrectTiles := incorrectTilesOf grid solution gridSize
  if incorrectTiles.isEmpty then none
  else
    let prev := countConnected grid
    let best := bestHintFold grid solution server isWrapping prev incorrectTiles
    if best.1 = none ∨ best.2 ≤ 0 then
      some ((incorrectTiles.find? (isAdjacentToNetwork grid gridSize isWrapping)).getD
        (incorrectTiles.getD 0 default))
    else best.1

/-- The grid after applying the hint (lines 823-830): set the chosen tile's
rotation to its solution value and rerun the evaluator. -/
def applyHint (grid : Grid) (solution : List (List Nat)) (gridSize : Nat)
    (server : Coords) (isWrapping : Bool) : Grid :=
  match hintTarget grid solution gridSize server isWrapping with
  | none => grid
  | some p => checkConnectivity (setRotation grid p.r p.c (getC solution p.r p.c))
      server isWrapping

/-- Hint target selection of the second `handleHintClick` copy
(lines 1435-1489), textually identical to the first. -/
def hintTarget2 (grid : Grid) (solution : List (List Nat)) (gridSize : Nat)
    (server : Coords) (isWrapping : Bool) : Option Coords :=
  let incorrectTiles := incorrectTilesOf grid solution gridSize
  if incorrectTiles.isEmpty then none
  else
    let prev := countConnected grid
    let best := bestHintFold grid solution server isWrapping prev incorrectTiles
    if best.1 = none ∨ best.2 ≤ 0 then
      some ((incorrectTiles.find? (isAdjacentToNetwork grid gridSize isWrapping)).getD
        (incorrectTiles.getD 0 default))
    else best.1

/-- Row worker of `applyRotations`. -/
def applyRotationsRow (solution : List (List Nat)) (r : Int) : Int → List Tile → List Tile
  | _, [] => []
  | c, t :: rest =>
    { t with rotation := getC solution r c } :: applyRotationsRow solution r (c + 1) rest

/-- Grid worker of `applyRotations`. -/
def applyRotationsGo (solution : List (List Nat)) : Int → Grid → Grid
  | _, [] => []
  | r, row :: rest =>
    applyRotationsRow solution r 0 row :: applyRotationsGo solution (r + 1) rest

/-- Set every tile's rotation to its recorded Solution value (the construction
used by the testable properties of the specification). -/
def applyRotations (g : Grid) (solution : List (List Nat)) : Grid :=
  applyRotationsGo solution 0 g

/-- Row worker of `applyRotationsNS`. -/
def applyRotationsNSRow (solution : List (List Nat)) (r : Int) : Int → List Tile → List Tile
  | _, [] => []
  | c, t :: rest =>
    (if t.isServer then t else { t with rotation := getC solution r c }) ::
      applyRotationsNSRow solution r (c + 1) rest

/-- Grid worker of `applyRotationsNS`. -/
def applyRotationsNSGo (solution : List (List Nat)) : Int → Grid → Grid
  | _, [] => []
  | r, row :: rest =>
    applyRotationsNSRow solution r 0 row :: applyRotationsNSGo solution (r + 1) rest

/-- Set every non-server tile's rotation to its recorded Solution value,
leaving server tiles untouched (the win-correctness construction of the
specification). -/
def applyRotationsNS (g : Grid) (solution : List (List Nat)) : Grid :=
  applyRotationsNSGo solution 0 g

/-! ### Specification-level predicates -/

/-- A `size` by `size` matrix. -/
def ShapedM {α : Type} (size : Nat) (m : List (List α)) : Prop :=
  m.length = size ∧ ∀ row ∈ m, row.length = size

/-- Direction bit `d` is set in mask `m`. -/
def hasBit (m : Nat) (d : Dir) : Prop := m &&& d.mask ≠ 0

instance (m : Nat) (d : Dir) : Decidable (hasBit m d) := by
  unfold hasBit; infer_instance

/-- Direction bit `d` of the connection-mask matrix at cell `p`. -/
def connBit (conns : List (List Nat)) (p : Coords) (d : Dir) : Prop :=
  hasBit (getC conns p.r p.c) d

/-- Reciprocity of a mask matrix: a cell's bit toward a direction is set iff
the topological neighbor in that direction exists and has the opposite bit. -/
def Recip (size : Nat) (isWrapping : Bool) (conns : List (List Nat)) : Prop :=
  ∀ p, inRange size p → ∀ d,
    (connBit conns p d ↔
      topoOk isWrapping size (topoNext isWrapping size p d) ∧
        connBit conns (topoNext isWrapping size p d) d.opp)

/-- One reciprocated step of the generation-time connection graph. -/
def GEdge (size : Nat) (isWrapping : Bool) (conns : List (List Nat)) (p q : Coords) : Prop :=
  inRange size p ∧ ∃ d, connBit conns p d ∧
    topoOk isWrapping size (topoNext isWrapping size p d) ∧ q = topoNext isWrapping size p d

/-- Reachability in the generation-time connection graph. -/
def GReach (size : Nat) (isWrapping : Bool) (conns : List (List Nat)) (p q : Coords) : Prop :=
  Relation.ReflTransGen (GEdge size isWrapping conns) p q

/-- Well-formedness of a generation-time connection matrix: square shape,
reciprocity, and every cell carrying a nonzero 4-bit mask and reachable from
`start` through reciprocated edges. `runWalk` establishes this and every
densification round preserves it. -/
def ConnsOk (size : Nat) (isWrapping : Bool) (start : Coords)
    (conns : List (List Nat)) : Prop :=
  ShapedM size conns ∧ Recip size isWrapping conns ∧
  ∀ p, inRange size p → getC conns p.r p.c ≠ 0 ∧ getC conns p.r p.c < 16 ∧
    GReach size isWrapping conns start p

/-- The final `connections` matrix computed by `generateGrid` (walk followed
by densification); `generateGrid` derives the grid, solution and terminals
from it. -/
def genConns (size : Nat) (isWrapping : Bool) (rng : Nat → Nat) : List (List Nat) :=
  (densifyLoop isWrapping size rng (extraConnections size)
    ((runWalk isWrapping size rng).connections, (runWalk isWrapping size rng).idx)).1

/-- The draw index reached after walk and densification; the next draw picks
the server. -/
def genIdx (size : Nat) (isWrapping : Bool) (rng : Nat → Nat) : Nat :=
  (densifyLoop isWrapping size rng (extraConnections size)
    ((runWalk isWrapping size rng).connections, (runWalk isWrapping size rng).idx)).2

/-- The server cell drawn by `generateGrid`. -/
def genServer (size : Nat) (isWrapping : Bool) (rng : Nat → Nat) : Coords :=
  serverOf size (rng (genIdx size isWrapping rng) % (size * size))

/-- One mutually-agreed step between grid cells, exactly the condition under
which the evaluator's BFS crosses from `p` to its neighbor: `p` exposes the
bit, the neighbor passes the bounds guard, and the neighbor reciprocates. -/
def MutualStep (grid : Grid) (size : Nat) (isWrapping : Bool) (p q : Coords) : Prop :=
  ∃ d, hasBit (connectionsOf (get2d grid p.r p.c)) d ∧
    topoOk isWrapping size (topoNext isWrapping size p d) ∧
    q = topoNext isWrapping size p d ∧
    hasBit (connectionsOf (get2d grid q.r q.c)) d.opp

/-- Reachability from the server under mutually-agreed steps; the evaluator's
connected set is exactly this set (for in-range servers). -/
def Reach (grid : Grid) (size : Nat) (isWrapping : Bool) (server p : Coords) : Prop :=
  Relation.ReflTransGen (MutualStep grid size isWrapping) server p

/-- Number of `true` entries of a boolean matrix. -/
def countTrue (m : List (List Bool)) : Nat :=
  (m.map fun row => (row.filter id).length).sum

/-- Invariant of the spanning-walk loop, for a side length of at least 2 and
an in-range start cell. -/
structure WalkInv (size : Nat) (isWrapping : Bool) (start : Coords) (s : WalkState) : Prop where
  shape_conns : ShapedM size s.connections
  shape_visited : ShapedM size s.visited
  recip : Recip size isWrapping s.connections
  mask_lt : ∀ p, inRange size p → getC s.connections p.r p.c < 16
  stack_inRange : ∀ p ∈ s.stack, inRange size p
  stack_visited : ∀ p ∈ s.stack, getV s.visited p.r p.c = true
  start_visited : getV s.visited start.r start.c = true
  visited_reach : ∀ p, inRange size p → getV s.visited p.r p.c = true →
    GReach size isWrapping s.connections start p
  popped_closed : ∀ p, inRange size p → getV s.visited p.r p.c = true → p ∉ s.stack →
    ∀ d, topoOk isWrapping size (topoNext isWrapping size p d) →
      getV s.visited (topoNext isWrapping size p d).r (topoNext isWrapping size p d).c = true
  mask_nonzero : ∀ p, inRange size p → p ≠ start → getV s.visited p.r p.c = true →
    getC s.connections p.r p.c ≠ 0
  start_mask : getC s.connections start.r start.c ≠ 0 ∨
    (s.stack = [start] ∧ ∀ p, inRange size p → p ≠ start → getV s.visited p.r p.c = false)

/-- Termination measure of the spanning-walk loop. -/
def walkMeasure (size : Nat) (s : WalkState) : Nat :=
  (size * size + 1) * (size * size - countTrue s.visited) + s.stack.length

/-- Invariant of the evaluator's BFS loop for an in-range server. -/
structure BfsInv (grid : Grid) (size : Nat) (isWrapping : Bool) (server : Coords)
    (s : BfsState) : Prop where
  queue_sub : ∀ p ∈ s.queue, p ∈ s.visited
  conn_sub : ∀ p ∈ s.connectedSet, p ∈ s.visited
  visited_sub : ∀ p ∈ s.visited, p ∈ s.connectedSet ∨ p ∈ s.queue
  nodup_visited : s.visited.Nodup
  visited_inRange : ∀ p ∈ s.visited, inRange size p
  visited_reach : ∀ p ∈ s.visited, Reach grid size isWrapping server p
  conn_closed : ∀ p ∈ s.connectedSet, ∀ q,
    MutualStep grid size isWrapping p q → q ∈ s.visited
  server_visited : server ∈ s.visited

/-- Termination measure of the BFS loop. -/
def bfsMeasure (size : Nat) (s : BfsState) : Nat :=
  s.queue.length + (size * size - s.visited.length)

/-! ### Concrete data used by the counterexamples -/

/-- An explicit random-draw stream (one entry per `Math.random()` call of
`generateGrid(5, false)`): start cell (0,0); a boustrophedon spanning walk;
two densification rounds adding the edges (2,1)-(3,1) and (2,3)-(3,3) followed
by eight no-op rounds aimed off-grid; server draw 0 (cell (0,0)); scramble
draws equal to the solved rotations except at (3,3), (3,4), (4,3), (4,4). -/
def streamC4 : List Nat :=
  [0, 0] ++
  [0, 0, 0, 0, 0, 1, 1, 1, 1, 0, 0, 0, 0, 0, 0, 1, 1, 1, 1, 0, 0, 0, 0, 0] ++
  ([2, 1, 1, 2, 3, 1] ++ [0, 0, 0, 0, 0, 0, 0, 0, 0, 0, 0, 0, 0, 0, 0, 0, 0, 0, 0, 0, 0, 0, 0, 0]) ++
  [0] ++
  [1, 1, 1, 2, 1, 1, 1, 1, 3, 0, 1, 1, 1, 2, 1, 3, 1, 0, 2, 0, 1, 1, 0, 0]

/-- The stream as a function. -/
def rngC4 : Nat → Nat := fun i => streamC4.getD i 0

/-- The generator output on that stream. -/
def genC4 : GenResult := generateGrid 5 false rngC4

/-- The freshly generated game state: `startNewGame` evaluates connectivity
immediately after generation. -/
def stateC4 : Grid := checkConnectivity genC4.grid genC4.serverCoords false

/-- A 1-by-1 bounded grid whose server is a terminal: its single wire stub
points off-grid. -/
def gridC3a : Grid := [[⟨.TERMINAL, 0, false, true⟩]]

/-- A 2-by-2 bounded grid whose server terminal points at a tile that does
not reciprocate. -/
def gridC3b : Grid :=
  [[⟨.TERMINAL, 1, false, true⟩, ⟨.TERMINAL, 1, false, false⟩],
   [⟨.TERMINAL, 0, false, false⟩, ⟨.TERMINAL, 0, false, false⟩]]

/-- A 2-by-2 bounded grid whose server terminal and east neighbor reciprocate
each other. -/
def gridC3c : Grid :=
  [[⟨.TERMINAL, 1, false, true⟩, ⟨.TERMINAL, 3, false, false⟩],
   [⟨.TERMINAL, 0, false, false⟩, ⟨.TERMINAL, 0, false, false⟩]]

/-! ### Basic lemmas: directions and masks -/

theorem Dir.mem_DIRECTIONS (d : Dir) : d ∈ DIRECTIONS := by
  cases d <;> simp [DIRECTIONS]

theorem Dir.opp_opp (d : Dir) : d.opp.opp = d := by
  cases d <;> rfl

theorem Dir.opp_dr (d : Dir) : d.opp.dr = -d.dr := by
  cases d <;> rfl

theorem Dir.opp_dc (d : Dir) : d.opp.dc = -d.dc := by
  cases d <;> rfl

theorem hasBit_mask_iff (d e : Dir) : hasBit d.mask e ↔ d = e := by
  cases d <;> cases e <;> decide

theorem lor_eq_zero_iff {a b : Nat} : a ||| b = 0 ↔ a = 0 ∧ b = 0 := by
  constructor
  · intro h
    have h' : ∀ i, Nat.testBit a i = false ∧ Nat.testBit b i = false := by
      intro i
      have := congrArg (fun n => Nat.testBit n i) h
      simpa [Nat.testBit_lor] using this
    exact ⟨Nat.eq_of_testBit_eq fun i => by simp [(h' i).1],
      Nat.eq_of_testBit_eq fun i => by simp [(h' i).2]⟩
  · rintro ⟨rfl, rfl⟩; rfl

theorem hasBit_lor {a b : Nat} {d : Dir} :
    hasBit (a ||| b) d ↔ hasBit a d ∨ hasBit b d := by
  unfold hasBit
  rw [Nat.and_distrib_right]
  constructor
  · intro h
    by_contra hc
    push_neg at hc
    rw [hc.1, hc.2] at h
    exact h rfl
  · intro h
    rcases h with h | h
    · intro h0
      exact h (lor_eq_zero_iff.mp h0).1
    · intro h0
      exact h (lor_eq_zero_iff.mp h0).2

theorem not_hasBit_zero (d : Dir) : ¬hasBit 0 d := by
  cases d <;> decide

theorem hasBit_ne_zero {m : Nat} {d : Dir} (h : hasBit m d) : m ≠ 0 := by
  rintro rfl
  exact not_hasBit_zero d h

/-! ### Basic lemmas: wrapping and neighbors -/

theorem wrapCoord_id {size : Nat} (hs : 0 < size) {x : Int} (h0 : 0 ≤ x)
    (h1 : x < (size : Int)) : wrapCoord size x = x := by
  unfold wrapCoord
  have h : x + (size : Int) = x + (size : Int) * 1 := by ring
  rw [h, Int.add_mul_emod_self_left]
  exact Int.emod_eq_of_lt h0 h1

theorem wrapCoord_add_one {size : Nat} (hs : 0 < size) {x : Int} (h0 : 0 ≤ x)
    (h1 : x < (size : Int)) :
    wrapCoord size (x + 1) = if x + 1 < (size : Int) then x + 1 else 0 := by
  unfold wrapCoord
  have h : x + 1 + (size : Int) = x + 1 + (size : Int) * 1 := by ring
  rw [h, Int.add_mul_emod_self_left]
  by_cases hlt : x + 1 < (size : Int)
  · rw [if_pos hlt]
    exact Int.emod_eq_of_lt (by omega) hlt
  · rw [if_neg hlt]
    have hx : x + 1 = (size : Int) := by omega
    rw [hx, Int.emod_self]

theorem wrapCoord_sub_one {size : Nat} (hs : 0 < size) {x : Int} (h0 : 0 ≤ x)
    (h1 : x < (size : Int)) :
    wrapCoord size (x - 1) = if 0 ≤ x - 1 then x - 1 else (size : Int) - 1 := by
  unfold wrapCoord
  by_cases hge : 0 ≤ x - 1
  · rw [if_pos hge]
    have h : x - 1 + (size : Int) = x - 1 + (size : Int) * 1 := by ring
    rw [h, Int.add_mul_emod_self_left]
    exact Int.emod_eq_of_lt hge (by omega)
  · rw [if_neg hge]
    have hx : x - 1 + (size : Int) = (size : Int) - 1 := by omega
    rw [hx]
    exact Int.emod_eq_of_lt (by omega) (by omega)

theorem wrapCoord_nonneg {size : Nat} (hs : 0 < size) (x : Int) :
    0 ≤ wrapCoord size x :=
  Int.emod_nonneg _ (by omega)

theorem wrapCoord_lt {size : Nat} (hs : 0 < size) (x : Int) :
    wrapCoord size x < (size : Int) :=
  Int.emod_lt_of_pos _ (by omega)

theorem inRange_topoNext {isWrapping : Bool} {size : Nat} (hs : 0 < size)
    {p : Coords} (d : Dir)
    (hok : topoOk isWrapping size (topoNext isWrapping size p d)) :
    inRange size (topoNext isWrapping size p d) := by
  rcases hok with hw | hin
  · subst hw
    unfold topoNext
    simp only [if_true]
    exact ⟨wrapCoord_nonneg hs _, wrapCoord_lt hs _, wrapCoord_nonneg hs _, wrapCoord_lt hs _⟩
  · exact hin

theorem wrapCoord_wrapCoord_add_neg {size : Nat} {x : Int} (h0 : 0 ≤ x)
    (h1 : x < (size : Int)) (y : Int) :
    wrapCoord size (wrapCoord size (x + y) + -y) = x := by
  unfold wrapCoord
  have e1 : (x + y + (size : Int)) % size + -y + size =
      (x + y + (size : Int)) % size + (-y + size) := by ring
  rw [e1, Int.emod_add_emod]
  have e2 : x + y + (size : Int) + (-y + size) = x + (size : Int) * 2 := by ring
  rw [e2, Int.add_mul_emod_self_left]
  exact Int.emod_eq_of_lt h0 h1

theorem topoNext_topoNext_opp {isWrapping : Bool} {size : Nat} {p : Coords}
    (hp : inRange size p) (d : Dir) :
    topoNext isWrapping size (topoNext isWrapping size p d) d.opp = p := by
  obtain ⟨h1, h2, h3, h4⟩ := hp
  obtain ⟨r, c⟩ := p
  cases isWrapping with
  | false =>
    simp only [topoNext, rawNext, if_neg Bool.false_ne_true, Dir.opp_dr, Dir.opp_dc]
    simp only [Coords.mk.injEq]
    omega
  | true =>
    simp only [topoNext, rawNext, if_true, Dir.opp_dr, Dir.opp_dc]
    simp only [Coords.mk.injEq]
    exact ⟨wrapCoord_wrapCoord_add_neg h1 h2 _, wrapCoord_wrapCoord_add_neg h3 h4 _⟩

theorem topoNext_ne {isWrapping : Bool} {size : Nat} (h2 : 2 ≤ size) {p : Coords}
    (hp : inRange size p) (d : Dir) : topoNext isWrapping size p d ≠ p := by
  have hs : 0 < size := by omega
  obtain ⟨hr0, hr1, hc0, hc1⟩ := hp
  intro h
  have hr := congrArg Coords.r h
  have hc := congrArg Coords.c h
  cases isWrapping with
  | false =>
    cases d <;> simp only [topoNext, rawNext, Dir.dr, Dir.dc, Bool.false_eq_true,
      if_false] at hr hc <;> omega
  | true =>
    cases d with
    | N =>
      simp only [topoNext, rawNext, Dir.dr, Dir.dc, if_true] at hr
      rw [show p.r + -1 = p.r - 1 by ring, wrapCoord_sub_one hs hr0 hr1] at hr
      split at hr <;> omega
    | S =>
      simp only [topoNext, rawNext, Dir.dr, Dir.dc, if_true] at hr
      rw [wrapCoord_add_one hs hr0 hr1] at hr
      split at hr <;> omega
    | E =>
      simp only [topoNext, rawNext, Dir.dr, Dir.dc, if_true] at hc
      rw [wrapCoord_add_one hs hc0 hc1] at hc
      split at hc <;> omega
    | W =>
      simp only [topoNext, rawNext, Dir.dr, Dir.dc, if_true] at hc
      rw [show p.c + -1 = p.c - 1 by ring, wrapCoord_sub_one hs hc0 hc1] at hc
      split at hc <;> omega

/-! ### Basic lemmas: matrices -/

theorem rowLength_of_shaped {α : Type} {size : Nat} {m : List (List α)}
    (h : ShapedM size m) {i : Nat} (hi : i < size) : (m.getD i []).length = size := by
  have hi' : i < m.length := by rw [h.1]; exact hi
  rw [List.getD_eq_getElem?_getD, List.getElem?_eq_getElem hi']
  exact h.2 _ (List.getElem_mem hi')

theorem shapedM_replicate {α : Type} (size : Nat) (x : α) :
    ShapedM size (List.replicate size (List.replicate size x)) := by
  refine ⟨by simp, ?_⟩
  intro row hrow
  rw [List.eq_of_mem_replicate hrow]
  simp

theorem shapedM_setM {α : Type} {size : Nat} {m : List (List α)} (h : ShapedM size m)
    {p : Coords} (hp : inRange size p) (v : α) : ShapedM size (setM m p.r p.c v) := by
  obtain ⟨hr0, hr1, hc0, hc1⟩ := hp
  refine ⟨by simpa [setM] using h.1, ?_⟩
  intro row hrow
  rcases List.mem_or_eq_of_mem_set hrow with hm | he
  · exact h.2 _ hm
  · rw [he, List.length_set]
    exact rowLength_of_shaped h (by omega)

theorem getD_set_self {α : Type} (l : List α) (i : Nat) (v d : α) (h : i < l.length) :
    (l.set i v).getD i d = v := by
  rw [List.getD_eq_getElem?_getD, List.getElem?_set_self h]
  rfl

theorem getD_set_ne {α : Type} (l : List α) {i j : Nat} (h : i ≠ j) (v d : α) :
    (l.set i v).getD j d = l.getD j d := by
  rw [List.getD_eq_getElem?_getD, List.getElem?_set_ne h, ← List.getD_eq_getElem?_getD]

theorem getM_setM_self {α : Type} {size : Nat} {m : List (List α)} (h : ShapedM size m)
    {p : Coords} (hp : inRange size p) (d v : α) :
    getM (setM m p.r p.c v) d p.r p.c = v := by
  obtain ⟨hr0, hr1, hc0, hc1⟩ := hp
  have hrn : p.r.toNat < m.length := by rw [h.1]; omega
  have hcn : p.c.toNat < (m.getD p.r.toNat []).length := by
    rw [rowLength_of_shaped h (show p.r.toNat < size by omega)]; omega
  show ((m.set p.r.toNat ((m.getD p.r.toNat []).set p.c.toNat v)).getD p.r.toNat []).getD
      p.c.toNat d = v
  rw [getD_set_self _ _ _ _ hrn, getD_set_self _ _ _ _ hcn]

theorem getM_setM_ne {α : Type} {size : Nat} {m : List (List α)} (h : ShapedM size m)
    {p q : Coords} (hp : inRange size p) (hq : inRange size q) (hne : q ≠ p) (d v : α) :
    getM (setM m p.r p.c v) d q.r q.c = getM m d q.r q.c := by
  obtain ⟨hr0, hr1, hc0, hc1⟩ := hp
  obtain ⟨kr0, kr1, kc0, kc1⟩ := hq
  by_cases hr : p.r.toNat = q.r.toNat
  · have hrr : q.r = p.r := by omega
    have hcc : p.c.toNat ≠ q.c.toNat := by
      intro hceq
      apply hne
      have h1 : q.c = p.c := by omega
      have h2 : q = ⟨q.r, q.c⟩ := rfl
      rw [h2, hrr, h1]
    have hrn : p.r.toNat < m.length := by rw [h.1]; omega
    show ((m.set p.r.toNat ((m.getD p.r.toNat []).set p.c.toNat v)).getD q.r.toNat []).getD
        q.c.toNat d = (m.getD q.r.toNat []).getD q.c.toNat d
    rw [← hr, getD_set_self _ _ _ _ hrn, getD_set_ne _ hcc]
  · show ((m.set p.r.toNat ((m.getD p.r.toNat []).set p.c.toNat v)).getD q.r.toNat []).getD
        q.c.toNat d = (m.getD q.r.toNat []).getD q.c.toNat d
    rw [getD_set_ne _ hr]

/-! ### The evaluator's final flag-writing pass -/

theorem setConnectedRow_length (cs : List Coords) (r : Int) :
    ∀ (c : Int) (row : List Tile), (setConnectedRow cs r c row).length = row.length := by
  intro c row
  induction row generalizing c with
  | nil => rfl
  | cons t rest ih => simp [setConnectedRow, ih]

theorem setConnectedGrid_length (cs : List Coords) :
    ∀ (r : Int) (g : Grid), (setConnectedGrid cs r g).length = g.length := by
  intro r g
  induction g generalizing r with
  | nil => rfl
  | cons row rest ih => simp [setConnectedGrid, ih]

theorem setConnectedRow_getD (cs : List Coords) (r : Int) :
    ∀ (row : List Tile) (c0 : Int) (j : Nat), j < row.length →
      (setConnectedRow cs r c0 row).getD j default =
        { row.getD j default with connected := decide ((⟨r, c0 + j⟩ : Coords) ∈ cs) } := by
  intro row
  induction row with
  | nil => intro c0 j h; simp at h
  | cons t rest ih =>
    intro c0 j h
    cases j with
    | zero => simp [setConnectedRow]
    | succ j' =>
      show (setConnectedRow cs r (c0 + 1) rest).getD j' default = _
      rw [ih (c0 + 1) j' (by simpa using h)]
      have he : c0 + 1 + (j' : Int) = c0 + ((j' + 1 : Nat) : Int) := by push_cast; ring
      rw [he]
      rfl

theorem setConnectedGrid_getD (cs : List Coords) :
    ∀ (g : Grid) (r0 : Int) (i : Nat), i < g.length →
      (setConnectedGrid cs r0 g).getD i [] = setConnectedRow cs (r0 + i) 0 (g.getD i []) := by
  intro g
  induction g with
  | nil => intro r0 i h; simp at h
  | cons row rest ih =>
    intro r0 i h
    cases i with
    | zero => simp [setConnectedGrid]
    | succ i' =>
      show (setConnectedGrid cs (r0 + 1) rest).getD i' [] = _
      rw [ih (r0 + 1) i' (by simpa using h)]
      have he : r0 + 1 + (i' : Int) = r0 + ((i' + 1 : Nat) : Int) := by push_cast; ring
      rw [he]
      rfl

theorem get2d_setConnectedGrid (cs : List Coords) (g : Grid) (r c : Nat)
    (hr : r < g.length) (hc : c < (g.getD r []).length) :
    get2d (setConnectedGrid cs 0 g) (r : Int) (c : Int) =
      { get2d g (r : Int) (c : Int) with
        connected := decide ((⟨(r : Int), (c : Int)⟩ : Coords) ∈ cs) } := by
  show ((setConnectedGrid cs 0 g).getD r []).getD c default = _
  rw [setConnectedGrid_getD cs g 0 r hr, setConnectedRow_getD cs _ _ 0 c hc]
  have h0 : (0 : Int) + (r : Int) = (r : Int) := by ring
  have h1 : (0 : Int) + (c : Int) = (c : Int) := by ring
  rw [h0, h1]
  rfl

theorem get2d_checkConnectivity (g : Grid) (server : Coords) (w : Bool) (r c : Nat)
    (hr : r < g.length) (hc : c < (g.getD r []).length) :
    get2d (checkConnectivity g server w) (r : Int) (c : Int) =
      { get2d g (r : Int) (c : Int) with
        connected := decide ((⟨(r : Int), (c : Int)⟩ : Coords) ∈
          (bfsLoop g g.length w (bfsFuel g.length)
            ⟨[server], [server], []⟩).connectedSet) } :=
  get2d_setConnectedGrid _ g r c hr hc

/-- C10: the Connectivity Evaluator only rewrites the `connected` field — the
output has the same dimensions as the input, and every cell keeps its `type`,
`rotation` and `isServer` values. -/
theorem checkConnectivity_frame (g : Grid) (server : Coords) (w : Bool) (r c : Nat)
    (hr : r < g.length) (hc : c < (g.getD r []).length) :
    (checkConnectivity g server w).length = g.length ∧
    ((checkConnectivity g server w).getD r []).length = (g.getD r []).length ∧
    (get2d (checkConnectivity g server w) (r : Int) (c : Int)).type
      = (get2d g (r : Int) (c : Int)).type ∧
    (get2d (checkConnectivity g server w) (r : Int) (c : Int)).rotation
      = (get2d g (r : Int) (c : Int)).rotation ∧
    (get2d (checkConnectivity g server w) (r : Int) (c : Int)).isServer
      = (get2d g (r : Int) (c : Int)).isServer := by
  refine ⟨setConnectedGrid_length _ _ _, ?_, ?_⟩
  · show ((setConnectedGrid _ 0 g).getD r []).length = _
    rw [setConnectedGrid_getD _ g 0 r hr, setConnectedRow_length]
  · rw [get2d_checkConnectivity g server w r c hr hc]
    exact ⟨rfl, rfl, rfl⟩

/-- Closed witness for `checkConnectivity_frame`. -/
theorem checkConnectivity_frame_witness :
    (0 < (gridC3b : Grid).length ∧ 1 < ((gridC3b : Grid).getD 0 []).length) ∧
    (get2d (checkConnectivity gridC3b ⟨0, 0⟩ false) 0 1).type = (get2d gridC3b 0 1).type ∧
    (get2d (checkConnectivity gridC3b ⟨0, 0⟩ false) 0 1).rotation
      = (get2d gridC3b 0 1).rotation ∧
    (get2d (checkConnectivity gridC3b ⟨0, 0⟩ false) 0 1).isServer
      = (get2d gridC3b 0 1).isServer := by
  refine ⟨by decide, ?_⟩
  have h := checkConnectivity_frame gridC3b ⟨0, 0⟩ false 0 1 (by decide) (by decide)
  exact ⟨h.2.2.1, h.2.2.2.1, h.2.2.2.2⟩

/-! ### C8: rotation requests on the server or out of range are no-ops -/

/-- C8: a rotation request whose coordinate misses the grid (`grid[r]?.[c]`
is `undefined`, which covers negative indices and indices at or beyond the
grid side) or addresses the server tile returns the grid unchanged — no tile's
rotation or connected flag changes, and being a total function it cannot
crash. -/
theorem rotateTile_noop (g : Grid) (isWon : Bool) (server : Coords) (w : Bool)
    (r c : Int)
    (h : get2d? g r c = none ∨ ∃ t, get2d? g r c = some t ∧ t.isServer = true) :
    rotateTile g isWon server w r c = g := by
  unfold rotateTile
  rcases h with h | ⟨t, ht, hsrv⟩
  · rw [h]
  · rw [ht]
    simp [hsrv]

/-- Closed witness for `rotateTile_noop`: an out-of-range request and a
server-tile request on a concrete grid. -/
theorem rotateTile_noop_witness :
    (get2d? gridC3b 0 5 = none ∨ ∃ t, get2d? gridC3b 0 5 = some t ∧ t.isServer = true) ∧
    rotateTile gridC3b false ⟨0, 0⟩ false 0 5 = gridC3b ∧
    rotateTile gridC3b false ⟨0, 0⟩ false 0 0 = gridC3b := by
  refine ⟨by decide, rotateTile_noop _ _ _ _ _ _ (by decide), ?_⟩
  exact rotateTile_noop gridC3b false ⟨0, 0⟩ false 0 0
    (Or.inr ⟨⟨.TERMINAL, 1, false, true⟩, by decide, rfl⟩)

/-! ### BFS machinery -/

theorem bfsLoop_conn_mono (g : Grid) (size : Nat) (w : Bool) :
    ∀ (fuel : Nat) (s : BfsState) (x : Coords), x ∈ s.connectedSet →
      x ∈ (bfsLoop g size w fuel s).connectedSet := by
  intro fuel
  induction fuel with
  | zero => intro s x hx; exact hx
  | succ n ih =>
    intro s x hx
    show x ∈ (bfsLoop g size w (n + 1) s).connectedSet
    rw [bfsLoop]
    match hq : s.queue with
    | [] => exact hx
    | p :: rest =>
      exact ih _ x (List.mem_cons_of_mem _ hx)

theorem length_le_of_nodup_inRange {size : Nat} {l : List Coords} (hn : l.Nodup)
    (hin : ∀ p ∈ l, inRange size p) : l.length ≤ size * size := by
  classical
  have hmapn : (l.map fun p => (p.r.toNat, p.c.toNat)).Nodup := by
    refine List.Nodup.map_on ?_ hn
    intro x hx y hy hxy
    obtain ⟨xr0, xr1, xc0, xc1⟩ := hin x hx
    obtain ⟨yr0, yr1, yc0, yc1⟩ := hin y hy
    have h1 : x.r.toNat = y.r.toNat := congrArg Prod.fst hxy
    have h2 : x.c.toNat = y.c.toNat := congrArg Prod.snd hxy
    have hx' : x = ⟨x.r, x.c⟩ := rfl
    have hy' : y = ⟨y.r, y.c⟩ := rfl
    rw [hx', hy']
    have e1 : x.r = y.r := by omega
    have e2 : x.c = y.c := by omega
    rw [e1, e2]
  have hsub : (l.map fun p => (p.r.toNat, p.c.toNat)).toFinset ⊆
      Finset.range size ×ˢ Finset.range size := by
    intro n hnmem
    obtain ⟨p, hp, hpe⟩ := List.mem_map.mp (List.mem_toFinset.mp hnmem)
    obtain ⟨pr0, pr1, pc0, pc1⟩ := hin p hp
    rw [← hpe]
    rw [Finset.mem_product, Finset.mem_range, Finset.mem_range]
    omega
  have hcard := Finset.card_le_card hsub
  rw [Finset.card_product, Finset.card_range,
    List.toFinset_card_of_nodup hmapn] at hcard
  simpa using hcard

theorem bfsDirs_spec (g : Grid) (size : Nat) (w : Bool) (p : Coords) (ds : List Dir) :
    ∀ q0 v0 : List Coords, ∃ new : List Coords,
      (ds.foldl (bfsDir g size w p (connectionsOf (get2d g p.r p.c))) (q0, v0)).1
          = q0 ++ new ∧
      (ds.foldl (bfsDir g size w p (connectionsOf (get2d g p.r p.c))) (q0, v0)).2.length
          = new.length + v0.length ∧
      (∀ x, x ∈ (ds.foldl (bfsDir g size w p (connectionsOf (get2d g p.r p.c)))
          (q0, v0)).2 ↔ x ∈ new ∨ x ∈ v0) ∧
      new.Nodup ∧
      (∀ x ∈ new, x ∉ v0) ∧
      (∀ x ∈ new, MutualStep g size w p x) ∧
      (v0.Nodup →
        (ds.foldl (bfsDir g size w p (connectionsOf (get2d g p.r p.c))) (q0, v0)).2.Nodup) ∧
      (∀ d ∈ ds, hasBit (connectionsOf (get2d g p.r p.c)) d →
        topoOk w size (topoNext w size p d) →
        hasBit (connectionsOf
          (get2d g (topoNext w size p d).r (topoNext w size p d).c)) d.opp →
        topoNext w size p d ∈
          (ds.foldl (bfsDir g size w p (connectionsOf (get2d g p.r p.c))) (q0, v0)).2) := by
  induction ds with
  | nil =>
    intro q0 v0
    refine ⟨[], by simp, by simp, by simp, List.nodup_nil, by simp, by simp, fun h => h, by simp⟩
  | cons d ds ih =>
    intro q0 v0
    simp only [List.foldl_cons]
    by_cases hbit : connectionsOf (get2d g p.r p.c) &&& d.mask ≠ 0
    · by_cases hok : topoOk w size (topoNext w size p d) ∧
          topoNext w size p d ∉ v0
      · by_cases hrecip : connectionsOf (get2d g (topoNext w size p d).r
            (topoNext w size p d).c) &&& d.opp.mask ≠ 0
        · -- the neighbor is enqueued and marked visited
          have hstep : bfsDir g size w p (connectionsOf (get2d g p.r p.c)) (q0, v0) d =
              (q0 ++ [topoNext w size p d], topoNext w size p d :: v0) := by
            unfold bfsDir
            rw [if_pos hbit, if_pos hok, if_pos hrecip]
          rw [hstep]
          obtain ⟨new', h1, h2, h3, h4, h5, h6, h8, h7⟩ := ih (q0 ++ [topoNext w size p d])
            (topoNext w size p d :: v0)
          refine ⟨topoNext w size p d :: new', ?_, ?_, ?_, ?_, ?_, ?_, ?_, ?_⟩
          · rw [h1, List.append_assoc]
            rfl
          · rw [h2]
            simp
            omega
          · intro x
            rw [h3 x]
            constructor
            · rintro (hx | hx)
              · exact Or.inl (List.mem_cons_of_mem _ hx)
              · rcases List.mem_cons.mp hx with hx | hx
                · exact Or.inl (by rw [hx]; exact List.mem_cons_self _ _)
                · exact Or.inr hx
            · rintro (hx | hx)
              · rcases List.mem_cons.mp hx with hx | hx
                · exact Or.inr (by rw [hx]; exact List.mem_cons_self _ _)
                · exact Or.inl hx
              · exact Or.inr (List.mem_cons_of_mem _ hx)
          · refine List.Nodup.cons ?_ h4
            intro hmem
            exact (h5 _ hmem) (List.mem_cons_self _ _)
          · intro x hx
            rcases List.mem_cons.mp hx with hx | hx
            · rw [hx]; exact hok.2
            · intro hv0
              exact (h5 x hx) (List.mem_cons_of_mem _ hv0)
          · intro x hx
            rcases List.mem_cons.mp hx with hx | hx
            · subst hx
              exact ⟨d, hbit, hok.1, rfl, hrecip⟩
            · exact h6 x hx
          · intro hv0n
            exact h8 (List.Nodup.cons hok.2 hv0n)
          · intro e he hebit heok herecip
            rcases List.mem_cons.mp he with he | he
            · subst he
              rw [h3]
              exact Or.inr (List.mem_cons_self _ _)
            · exact h7 e he hebit heok herecip
        · -- neighbor does not reciprocate: no change
          have hstep : bfsDir g size w p (connectionsOf (get2d g p.r p.c)) (q0, v0) d =
              (q0, v0) := by
            unfold bfsDir
            rw [if_pos hbit, if_pos hok, if_neg hrecip]
          rw [hstep]
          obtain ⟨new', h1, h2, h3, h4, h5, h6, h8, h7⟩ := ih q0 v0
          refine ⟨new', h1, h2, h3, h4, h5, h6, h8, ?_⟩
          intro e he hebit heok herecip
          rcases List.mem_cons.mp he with he | he
          · subst he
            exact absurd herecip hrecip
          · exact h7 e he hebit heok herecip
      · -- bounds guard fails or the neighbor is already visited: no change
        have hstep : bfsDir g size w p (connectionsOf (get2d g p.r p.c)) (q0, v0) d =
            (q0, v0) := by
          unfold bfsDir
          rw [if_pos hbit, if_neg hok]
        rw [hstep]
        obtain ⟨new', h1, h2, h3, h4, h5, h6, h8, h7⟩ := ih q0 v0
        refine ⟨new', h1, h2, h3, h4, h5, h6, h8, ?_⟩
        intro e he hebit heok herecip
        rcases List.mem_cons.mp he with he | he
        · subst he
          rcases Decidable.em (topoNext w size p e ∈ v0) with hv | hv
          · rw [h3]
            exact Or.inr hv
          · exact absurd ⟨heok, hv⟩ hok
        · exact h7 e he hebit heok herecip
    · -- the dequeued tile has no bit toward d: no change
      have hstep : bfsDir g size w p (connectionsOf (get2d g p.r p.c)) (q0, v0) d =
          (q0, v0) := by
        unfold bfsDir
        rw [if_neg hbit]
      rw [hstep]
      obtain ⟨new', h1, h2, h3, h4, h5, h6, h8, h7⟩ := ih q0 v0
      refine ⟨new', h1, h2, h3, h4, h5, h6, h8, ?_⟩
      intro e he hebit heok herecip
      rcases List.mem_cons.mp he with he | he
      · subst he
        exact absurd hebit hbit
      · exact h7 e he hebit heok herecip

theorem bfsLoop_succ_cons (g : Grid) (size : Nat) (w : Bool) (fuel : Nat)
    (p : Coords) (rest v cs : List Coords) :
    bfsLoop g size w (fuel + 1) ⟨p :: rest, v, cs⟩ =
      bfsLoop g size w fuel
        ⟨(DIRECTIONS.foldl (bfsDir g size w p (connectionsOf (get2d g p.r p.c)))
            (rest, v)).1,
         (DIRECTIONS.foldl (bfsDir g size w p (connectionsOf (get2d g p.r p.c)))
            (rest, v)).2,
         p :: cs⟩ := rfl

theorem bfsInv_step {g : Grid} {size : Nat} {w : Bool} {server : Coords}
    (hs : 0 < size) {s : BfsState} (inv : BfsInv g size w server s)
    {p : Coords} {rest : List Coords} (hq : s.queue = p :: rest) :
    BfsInv g size w server
      ⟨(DIRECTIONS.foldl (bfsDir g size w p (connectionsOf (get2d g p.r p.c)))
          (rest, s.visited)).1,
       (DIRECTIONS.foldl (bfsDir g size w p (connectionsOf (get2d g p.r p.c)))
          (rest, s.visited)).2,
       p :: s.connectedSet⟩ ∧
    bfsMeasure size
      ⟨(DIRECTIONS.foldl (bfsDir g size w p (connectionsOf (get2d g p.r p.c)))
          (rest, s.visited)).1,
       (DIRECTIONS.foldl (bfsDir g size w p (connectionsOf (get2d g p.r p.c)))
          (rest, s.visited)).2,
       p :: s.connectedSet⟩ + 1 = bfsMeasure size s := by
  obtain ⟨new, h1, h2, h3, h4, h5, h6, h8, h7⟩ := bfsDirs_spec g size w p DIRECTIONS rest s.visited
  have hpmem : p ∈ s.visited := inv.queue_sub p (by rw [hq]; exact List.mem_cons_self _ _)
  have hnewV : ∀ x ∈ new, x ∈ (DIRECTIONS.foldl (bfsDir g size w p
      (connectionsOf (get2d g p.r p.c))) (rest, s.visited)).2 := by
    intro x hx
    exact (h3 x).mpr (Or.inl hx)
  have holdV : ∀ x ∈ s.visited, x ∈ (DIRECTIONS.foldl (bfsDir g size w p
      (connectionsOf (get2d g p.r p.c))) (rest, s.visited)).2 := by
    intro x hx
    exact (h3 x).mpr (Or.inr hx)
  have hnewIn : ∀ x ∈ new, inRange size x := by
    intro x hx
    obtain ⟨d, _, hok, hxe, _⟩ := h6 x hx
    rw [hxe]
    exact inRange_topoNext hs d hok
  refine ⟨⟨?_, ?_, ?_, ?_, ?_, ?_, ?_, ?_⟩, ?_⟩
  · -- queue_sub
    intro x hx
    rw [h1] at hx
    rcases List.mem_append.mp hx with hx | hx
    · exact holdV x (inv.queue_sub x (by rw [hq]; exact List.mem_cons_of_mem _ hx))
    · exact hnewV x hx
  · -- conn_sub
    intro x hx
    rcases List.mem_cons.mp hx with hx | hx
    · exact holdV x (by rw [hx]; exact hpmem)
    · exact holdV x (inv.conn_sub x hx)
  · -- visited_sub
    intro x hx
    rcases (h3 x).mp hx with hx | hx
    · exact Or.inr (by rw [h1]; exact List.mem_append.mpr (Or.inr hx))
    · rcases inv.visited_sub x hx with hc | hqm
      · exact Or.inl (List.mem_cons_of_mem _ hc)
      · rcases List.mem_cons.mp (hq ▸ hqm) with he | hr
        · exact Or.inl (by rw [he]; exact List.mem_cons_self _ _)
        · exact Or.inr (by rw [h1]; exact List.mem_append.mpr (Or.inl hr))
  · -- nodup_visited
    exact h8 inv.nodup_visited
  · -- visited_inRange
    intro x hx
    rcases (h3 x).mp hx with hx | hx
    · exact hnewIn x hx
    · exact inv.visited_inRange x hx
  · -- visited_reach
    intro x hx
    rcases (h3 x).mp hx with hx | hx
    · exact Relation.ReflTransGen.tail (inv.visited_reach p hpmem) (h6 x hx)
    · exact inv.visited_reach x hx
  · -- conn_closed
    intro x hx q hstep
    rcases List.mem_cons.mp hx with hx | hx
    · subst hx
      obtain ⟨d, hbit, hok, hqe, hrecip⟩ := hstep
      subst hqe
      exact h7 d (Dir.mem_DIRECTIONS d) hbit hok hrecip
    · exact holdV q (inv.conn_closed x hx q hstep)
  · -- server_visited
    exact holdV server inv.server_visited
  · -- the measure drops by exactly one
    have hVbound : (DIRECTIONS.foldl (bfsDir g size w p
        (connectionsOf (get2d g p.r p.c))) (rest, s.visited)).2.length ≤ size * size := by
      refine length_le_of_nodup_inRange (h8 inv.nodup_visited) ?_
      intro x hx
      rcases (h3 x).mp hx with hx | hx
      · exact hnewIn x hx
      · exact inv.visited_inRange x hx
    unfold bfsMeasure
    rw [hq, h1, h2]
    simp only [List.length_append, List.length_cons]
    omega

theorem bfsLoop_final {g : Grid} {size : Nat} {w : Bool} {server : Coords}
    (hs : 0 < size) :
    ∀ (fuel : Nat) (s : BfsState), BfsInv g size w server s →
      bfsMeasure size s ≤ fuel →
      (bfsLoop g size w fuel s).queue = [] ∧
        BfsInv g size w server (bfsLoop g size w fuel s) := by
  intro fuel
  induction fuel with
  | zero =>
    intro s inv hm
    have hq : s.queue = [] := by
      have : s.queue.length = 0 := by
        unfold bfsMeasure at hm
        omega
      exact List.eq_nil_of_length_eq_zero this
    exact ⟨hq, inv⟩
  | succ n ih =>
    intro s inv hm
    match hq : s.queue with
    | [] =>
      have hrun : bfsLoop g size w (n + 1) s = s := by
        rw [bfsLoop, hq]
      rw [hrun]
      exact ⟨hq, inv⟩
    | p :: rest =>
      obtain ⟨q, v, cs⟩ := s
      simp only at hq
      subst hq
      obtain ⟨inv', hm'⟩ := bfsInv_step hs inv rfl
      rw [bfsLoop_succ_cons]
      refine ih _ inv' ?_
      simp only [bfsMeasure] at hm hm' ⊢
      omega

/-- The evaluator's connected set is exactly the set of cells reachable from
the server by mutually-agreed steps. -/
theorem bfs_connectedSet_iff {g : Grid} {size : Nat} {w : Bool} {server : Coords}
    (hserver : inRange size server) (x : Coords) :
    x ∈ (bfsLoop g size w (bfsFuel size)
        ⟨[server], [server], []⟩).connectedSet ↔ Reach g size w server x := by
  have hs : 0 < size := by
    obtain ⟨h1, h2, _, _⟩ := hserver
    omega
  have inv0 : BfsInv g size w server ⟨[server], [server], []⟩ := by
    refine ⟨?_, ?_, ?_, ?_, ?_, ?_, ?_, ?_⟩
    · intro p hp; exact hp
    · intro p hp; simp at hp
    · intro p hp; exact Or.inr hp
    · exact List.nodup_singleton _
    · intro p hp
      rw [List.mem_singleton.mp hp]
      exact hserver
    · intro p hp
      rw [List.mem_singleton.mp hp]
      exact Relation.ReflTransGen.refl
    · intro p hp; simp at hp
    · exact List.mem_singleton_self _
  have hm0 : bfsMeasure size ⟨[server], [server], []⟩ ≤ bfsFuel size := by
    unfold bfsMeasure bfsFuel
    simp
    omega
  obtain ⟨hqe, invf⟩ := bfsLoop_final hs (bfsFuel size) _ inv0 hm0
  constructor
  · intro hx
    exact invf.visited_reach x (invf.conn_sub x hx)
  · intro hreach
    have hvc : ∀ y, y ∈ (bfsLoop g size w (bfsFuel size)
        ⟨[server], [server], []⟩).visited → y ∈ (bfsLoop g size w (bfsFuel size)
        ⟨[server], [server], []⟩).connectedSet := by
      intro y hy
      rcases invf.visited_sub y hy with hc | hqm
      · exact hc
      · rw [hqe] at hqm
        simp at hqm
    induction hreach with
    | refl => exact hvc server invf.server_visited
    | tail hab hbc ih2 =>
      rename_i b c2
      exact hvc c2 (invf.conn_closed b ih2 c2 hbc)

/-- Cell-level characterization: after the evaluator runs, a cell's
`connected` flag is set iff the cell is reachable from the server. -/
theorem checkConnectivity_connected_iff (g : Grid) (server : Coords) (w : Bool)
    (hserver : inRange g.length server) (r c : Nat)
    (hr : r < g.length) (hc : c < (g.getD r []).length) :
    ((get2d (checkConnectivity g server w) (r : Int) (c : Int)).connected = true ↔
      Reach g g.length w server ⟨(r : Int), (c : Int)⟩) := by
  rw [get2d_checkConnectivity g server w r c hr hc]
  show (decide _ = true) ↔ _
  rw [decide_eq_true_iff]
  exact bfs_connectedSet_iff hserver _

/-! ### C9: the server cell is always marked connected -/

theorem mem_flatGrid {g : Grid} {row : List Tile} {x : Tile}
    (hrow : row ∈ g) (hx : x ∈ row) : x ∈ flatGrid g := by
  induction g with
  | nil => simp at hrow
  | cons r rest ih =>
    show x ∈ r ++ flatGrid rest
    rcases List.mem_cons.mp hrow with h | h
    · exact List.mem_append.mpr (Or.inl (h ▸ hx))
    · exact List.mem_append.mpr (Or.inr (ih h))

theorem getD_mem_self {α : Type} {l : List α} {i : Nat} (h : i < l.length) (d : α) :
    l.getD i d ∈ l := by
  rw [List.getD_eq_getElem?_getD, List.getElem?_eq_getElem h]
  exact List.getElem_mem h

theorem countConnected_pos {g : Grid} {x : Tile} (hx : x ∈ flatGrid g)
    (hc : x.connected = true) : 1 ≤ countConnected g := by
  have hmem : x ∈ (flatGrid g).filter (fun t => t.connected) :=
    List.mem_filter.mpr ⟨hx, hc⟩
  have := List.length_pos.mpr (List.ne_nil_of_mem hmem)
  unfold countConnected
  omega

/-- C9: for every square grid and in-range server coordinate (regardless of
whether any neighbor reciprocates a server stub), the Connectivity Evaluator
marks the server cell itself connected, so the connected-cell count after an
evaluation is at least 1. -/
theorem evaluator_marks_server (g : Grid) (server : Coords) (w : Bool)
    (hsq : ∀ row ∈ g, row.length = g.length)
    (hserver : inRange g.length server) :
    (get2d (checkConnectivity g server w) server.r server.c).connected = true ∧
    1 ≤ countConnected (checkConnectivity g server w) := by
  obtain ⟨h1, h2, h3, h4⟩ := hserver
  have hre : ((server.r.toNat : Int)) = server.r := Int.toNat_of_nonneg h1
  have hce : ((server.c.toNat : Int)) = server.c := Int.toNat_of_nonneg h3
  have hrn : server.r.toNat < g.length := by omega
  have hrowlen : (g.getD server.r.toNat []).length = g.length :=
    hsq _ (getD_mem_self hrn [])
  have hcn : server.c.toNat < (g.getD server.r.toNat []).length := by
    rw [hrowlen]; omega
  have hserver' : server = ⟨(server.r.toNat : Int), (server.c.toNat : Int)⟩ := by
    rw [hre, hce]
  have hconn : (get2d (checkConnectivity g server w)
      (server.r.toNat : Int) (server.c.toNat : Int)).connected = true := by
    rw [checkConnectivity_connected_iff g server w ⟨h1, h2, h3, h4⟩
      server.r.toNat server.c.toNat hrn hcn]
    rw [← hserver']
    exact Relation.ReflTransGen.refl
  constructor
  · rw [← hre, ← hce]
    exact hconn
  · have hlen : (checkConnectivity g server w).length = g.length :=
      setConnectedGrid_length _ _ _
    have hrn' : server.r.toNat < (checkConnectivity g server w).length := by omega
    have hrowmem : (checkConnectivity g server w).getD server.r.toNat []
        ∈ checkConnectivity g server w := getD_mem_self hrn' []
    have hrowlen' : ((checkConnectivity g server w).getD server.r.toNat []).length
        = (g.getD server.r.toNat []).length :=
      (checkConnectivity_frame g server w server.r.toNat server.c.toNat hrn hcn).2.1
    have hcn' : server.c.toNat <
        ((checkConnectivity g server w).getD server.r.toNat []).length := by
      rw [hrowlen']; exact hcn
    have hcellmem : get2d (checkConnectivity g server w)
        (server.r.toNat : Int) (server.c.toNat : Int)
        ∈ (checkConnectivity g server w).getD server.r.toNat [] := by
      show ((checkConnectivity g server w).getD server.r.toNat []).getD
        server.c.toNat default ∈ _
      exact getD_mem_self hcn' default
    exact countConnected_pos (mem_flatGrid hrowmem hcellmem) hconn

/-- Closed witness for `evaluator_marks_server`: the 1-by-1 terminal grid. -/
theorem evaluator_marks_server_witness :
    (get2d (checkConnectivity gridC3a ⟨0, 0⟩ false) 0 0).connected = true ∧
    1 ≤ countConnected (checkConnectivity gridC3a ⟨0, 0⟩ false) :=
  evaluator_marks_server gridC3a ⟨0, 0⟩ false (by decide) (by decide)

/-! ### C7: evaluator idempotence -/

theorem bfsDir_congr {g1 g2 : Grid} (size : Nat) (w : Bool)
    (hmask : ∀ r c : Int, connectionsOf (get2d g1 r c) = connectionsOf (get2d g2 r c))
    (p : Coords) :
    bfsDir g1 size w p (connectionsOf (get2d g1 p.r p.c)) =
      bfsDir g2 size w p (connectionsOf (get2d g2 p.r p.c)) := by
  funext qv d
  unfold bfsDir
  simp only [hmask]

theorem bfsLoop_congr {g1 g2 : Grid} (size : Nat) (w : Bool)
    (hmask : ∀ r c : Int, connectionsOf (get2d g1 r c) = connectionsOf (get2d g2 r c)) :
    ∀ (fuel : Nat) (s : BfsState),
      bfsLoop g1 size w fuel s = bfsLoop g2 size w fuel s := by
  intro fuel
  induction fuel with
  | zero => intro s; rfl
  | succ n ih =>
    intro s
    obtain ⟨q, v, cs⟩ := s
    match q with
    | [] => rfl
    | p :: rest =>
      rw [bfsLoop_succ_cons, bfsLoop_succ_cons, bfsDir_congr size w hmask p, ih]

theorem getD_eq_default {α : Type} {l : List α} {i : Nat} (h : l.length ≤ i) (d : α) :
    l.getD i d = d := by
  rw [List.getD_eq_getElem?_getD, List.getElem?_eq_none h]
  rfl

/-- The evaluator does not change any connection mask: every cell read, in
range or (through the `getD` defaults) out of range, yields the same mask
before and after. -/
theorem checkConnectivity_mask_eq (g : Grid) (server : Coords) (w : Bool) :
    ∀ r c : Int, connectionsOf (get2d (checkConnectivity g server w) r c) =
      connectionsOf (get2d g r c) := by
  intro r c
  show connectionsOf (((setConnectedGrid _ 0 g).getD r.toNat []).getD c.toNat default) =
    connectionsOf ((g.getD r.toNat []).getD c.toNat default)
  by_cases hr : r.toNat < g.length
  · rw [setConnectedGrid_getD _ g 0 r.toNat hr]
    have h0 : (0 : Int) + (r.toNat : Int) = (r.toNat : Int) := by ring
    rw [h0]
    by_cases hc : c.toNat < (g.getD r.toNat []).length
    · rw [setConnectedRow_getD _ _ _ 0 c.toNat hc]
      rfl
    · rw [getD_eq_default (by rw [setConnectedRow_length]; omega) default,
        getD_eq_default (by omega) default]
  · rw [getD_eq_default (show (setConnectedGrid _ 0 g).length ≤ r.toNat by
      rw [setConnectedGrid_length]; omega) [], getD_eq_default (by omega) []]

theorem setConnectedRow_idem (cs : List Coords) (r : Int) :
    ∀ (c : Int) (row : List Tile),
      setConnectedRow cs r c (setConnectedRow cs r c row) = setConnectedRow cs r c row := by
  intro c row
  induction row generalizing c with
  | nil => rfl
  | cons t rest ih =>
    show setConnectedRow cs r c ({ t with connected := _ } :: _) = _
    rw [setConnectedRow]
    rw [ih (c + 1)]
    rfl

theorem setConnectedGrid_idem (cs : List Coords) :
    ∀ (r : Int) (g : Grid),
      setConnectedGrid cs r (setConnectedGrid cs r g) = setConnectedGrid cs r g := by
  intro r g
  induction g generalizing r with
  | nil => rfl
  | cons row rest ih =>
    show setConnectedGrid cs r (setConnectedRow cs r 0 row :: _) = _
    rw [setConnectedGrid]
    rw [ih (r + 1), setConnectedRow_idem]
    rfl

/-- C7: the Connectivity Evaluator is idempotent — for every grid, server
coordinate and wrap flag, running it on its own output returns that output
unchanged (in particular, identical connected flags). -/
theorem checkConnectivity_idem (g : Grid) (server : Coords) (w : Bool) :
    checkConnectivity (checkConnectivity g server w) server w =
      checkConnectivity g server w := by
  have hlen : (checkConnectivity g server w).length = g.length :=
    setConnectedGrid_length _ _ _
  show setConnectedGrid (bfsLoop (checkConnectivity g server w)
      (checkConnectivity g server w).length w
      (bfsFuel (checkConnectivity g server w).length)
      ⟨[server], [server], []⟩).connectedSet 0 (checkConnectivity g server w) = _
  rw [hlen, bfsLoop_congr g.length w (checkConnectivity_mask_eq g server w)]
  show setConnectedGrid _ 0 (setConnectedGrid _ 0 g) = setConnectedGrid _ 0 g
  exact setConnectedGrid_idem _ 0 g

/-! ### C3: the evaluator's output versus the no-leak re-check -/

/-- Counterexample to C3: the Connectivity Evaluator's output does not, in
general, pass the Win Verifier's no-leak re-check. On a 1-by-1 bounded grid
the connected server exposes a bit off-grid (leak case 1), and on a 2-by-2
bounded grid the connected server exposes a bit toward an in-grid,
non-reciprocating, unconnected tile (leak case 2); the re-check fails on both
evaluator outputs. -/
theorem noLeak_fails_on_evaluator_output :
    noLeakCheck (checkConnectivity gridC3a ⟨0, 0⟩ false) 1 false = false ∧
    noLeakCheck (checkConnectivity gridC3b ⟨0, 0⟩ false) 2 false = false := by decide

/-- C3 amended: what the evaluator's output does guarantee is closure under
mutual agreement — a cell marked connected whose current mask exposes a bit
toward a neighbor that passes the bounds guard and reciprocates the bit has
that neighbor marked connected as well. Bits pointing off-grid, at
non-reciprocating tiles or at unconnected tiles can remain on connected
cells, so the full no-leak re-check can still fail (see the counterexample). -/
theorem evaluator_closure (g : Grid) (server : Coords) (w : Bool)
    (hsq : ∀ row ∈ g, row.length = g.length)
    (hserver : inRange g.length server) (r c : Nat)
    (hr : r < g.length) (hc : c < (g.getD r []).length)
    (hconn : (get2d (checkConnectivity g server w) (r : Int) (c : Int)).connected = true)
    (d : Dir)
    (hbit : hasBit (connectionsOf
      (get2d (checkConnectivity g server w) (r : Int) (c : Int))) d)
    (hok : topoOk w g.length (topoNext w g.length ⟨(r : Int), (c : Int)⟩ d))
    (hrecip : hasBit (connectionsOf (get2d (checkConnectivity g server w)
      (topoNext w g.length ⟨(r : Int), (c : Int)⟩ d).r
      (topoNext w g.length ⟨(r : Int), (c : Int)⟩ d).c)) d.opp) :
    (get2d (checkConnectivity g server w)
      (topoNext w g.length ⟨(r : Int), (c : Int)⟩ d).r
      (topoNext w g.length ⟨(r : Int), (c : Int)⟩ d).c).connected = true := by
  have hs : 0 < g.length := by
    obtain ⟨a, b, _, _⟩ := hserver
    omega
  have hreach : Reach g g.length w server ⟨(r : Int), (c : Int)⟩ :=
    (checkConnectivity_connected_iff g server w hserver r c hr hc).mp hconn
  rw [checkConnectivity_mask_eq] at hbit hrecip
  have hstep : MutualStep g g.length w ⟨(r : Int), (c : Int)⟩
      (topoNext w g.length ⟨(r : Int), (c : Int)⟩ d) :=
    ⟨d, hbit, hok, rfl, hrecip⟩
  have hreach' : Reach g g.length w server
      (topoNext w g.length ⟨(r : Int), (c : Int)⟩ d) :=
    Relation.ReflTransGen.tail hreach hstep
  have hqin : inRange g.length (topoNext w g.length ⟨(r : Int), (c : Int)⟩ d) :=
    inRange_topoNext hs d hok
  obtain ⟨q1, q2, q3, q4⟩ := hqin
  have hre : (((topoNext w g.length ⟨(r : Int), (c : Int)⟩ d).r.toNat : Int))
      = (topoNext w g.length ⟨(r : Int), (c : Int)⟩ d).r := Int.toNat_of_nonneg q1
  have hce : (((topoNext w g.length ⟨(r : Int), (c : Int)⟩ d).c.toNat : Int))
      = (topoNext w g.length ⟨(r : Int), (c : Int)⟩ d).c := Int.toNat_of_nonneg q3
  have hrn : (topoNext w g.length ⟨(r : Int), (c : Int)⟩ d).r.toNat < g.length := by omega
  have hcn : (topoNext w g.length ⟨(r : Int), (c : Int)⟩ d).c.toNat <
      (g.getD (topoNext w g.length ⟨(r : Int), (c : Int)⟩ d).r.toNat []).length := by
    rw [hsq _ (getD_mem_self hrn [])]
    omega
  have hqeq : (⟨((topoNext w g.length ⟨(r : Int), (c : Int)⟩ d).r.toNat : Int),
      ((topoNext w g.length ⟨(r : Int), (c : Int)⟩ d).c.toNat : Int)⟩ : Coords)
      = topoNext w g.length ⟨(r : Int), (c : Int)⟩ d := by
    rw [hre, hce]
  rw [← hre, ← hce]
  rw [checkConnectivity_connected_iff g server w hserver _ _ hrn hcn]
  rw [hqeq]
  exact hreach'

/-- Closed witness for `evaluator_closure`: in the mutually-wired 2-by-2 grid
the server is connected and exposes its bit eastward with reciprocation, so
the theorem forces the east tile to be connected — as it is. -/
theorem evaluator_closure_witness :
    (get2d (checkConnectivity gridC3c ⟨0, 0⟩ false) 0 0).connected = true ∧
    (get2d (checkConnectivity gridC3c ⟨0, 0⟩ false)
      (topoNext false 2 ⟨0, 0⟩ .E).r (topoNext false 2 ⟨0, 0⟩ .E).c).connected = true := by
  refine ⟨by decide, ?_⟩
  have h := evaluator_closure gridC3c ⟨0, 0⟩ false (by decide) (by decide) 0 0
    (by decide) (by decide) (by decide) .E (by decide) (by decide) (by decide)
  exact h

/-! ### C5: the two near-duplicate generate/evaluate/hint blocks -/

/-- Counterexample to C5: the two `generateGrid` copies are not behaviourally
equivalent. On the same random stream the first copy's densification pass
turns cell (2,1) into a T-junction, while the second copy (which lacks the
pass) leaves it a straight tile, so the two functions disagree at a concrete
input. -/
theorem generateGrid_copies_differ :
    (get2d (generateGrid 5 false rngC4).grid 2 1).type ≠
      (get2d (generateGrid2 5 false rngC4).grid 2 1).type := by decide

/-- C5 amended: of the near-duplicate blocks, the two Connectivity Evaluator
copies compute the same function and the two hint-selection blocks compute
the same function, but the two `generateGrid` copies do not — only the first
performs the densification pass, so they disagree on concrete inputs (see the
counterexample) and the generator pair cannot collapse without changing
behaviour. -/
theorem duplicate_blocks_partial_equivalence :
    checkConnectivity2 = checkConnectivity ∧ hintTarget2 = hintTarget :=
  ⟨rfl, rfl⟩

/-! ### Counting visited cells -/

theorem filter_length_set_true :
    ∀ (row : List Bool) (cn : Nat), cn < row.length → row.getD cn false = false →
      ((row.set cn true).filter id).length = (row.filter id).length + 1 := by
  intro row
  induction row with
  | nil => intro cn h; simp at h
  | cons b rest ih =>
    intro cn hlt hfalse
    cases cn with
    | zero =>
      have hb : b = false := hfalse
      subst hb
      simp [List.filter]
    | succ n =>
      have h1 : ((rest.set n true).filter id).length = (rest.filter id).length + 1 :=
        ih n (by simpa using hlt) hfalse
      cases b <;> simp [List.filter, h1]

theorem countTrue_set_row :
    ∀ (m : List (List Bool)) (i : Nat) (r' : List Bool), i < m.length →
      countTrue (m.set i r') + ((m.getD i []).filter id).length =
        countTrue m + (r'.filter id).length := by
  intro m
  induction m with
  | nil => intro i r' h; simp at h
  | cons row rest ih =>
    intro i r' hlt
    cases i with
    | zero =>
      show countTrue (r' :: rest) + _ = _
      simp only [countTrue, List.map_cons, List.sum_cons]
      have : (row :: rest).getD 0 [] = row := rfl
      rw [this]
      omega
    | succ n =>
      have h1 := ih n r' (by simpa using hlt)
      show countTrue (row :: rest.set n r') + _ = _
      simp only [countTrue, List.map_cons, List.sum_cons] at h1 ⊢
      have h2 : ((row :: rest).getD (n + 1) []) = rest.getD n [] := rfl
      rw [h2]
      omega

theorem countTrue_setV {size : Nat} {m : List (List Bool)} (h : ShapedM size m)
    {p : Coords} (hp : inRange size p) (hfalse : getV m p.r p.c = false) :
    countTrue (setV m p.r p.c true) = countTrue m + 1 := by
  obtain ⟨h1, h2, h3, h4⟩ := hp
  have hrn : p.r.toNat < m.length := by rw [h.1]; omega
  have hcn : p.c.toNat < (m.getD p.r.toNat []).length := by
    rw [rowLength_of_shaped h (show p.r.toNat < size by omega)]; omega
  have hrow := countTrue_set_row m p.r.toNat ((m.getD p.r.toNat []).set p.c.toNat true) hrn
  have hcell := filter_length_set_true (m.getD p.r.toNat []) p.c.toNat hcn hfalse
  show countTrue (m.set p.r.toNat ((m.getD p.r.toNat []).set p.c.toNat true)) = _
  omega

theorem countTrue_le_aux :
    ∀ (m : List (List Bool)) (size : Nat), (∀ row ∈ m, row.length ≤ size) →
      countTrue m ≤ m.length * size := by
  intro m size
  induction m with
  | nil => intro _; simp [countTrue]
  | cons row rest ih =>
    intro h
    have hrow : (row.filter id).length ≤ size :=
      le_trans (List.length_filter_le _ _) (h row (List.mem_cons_self _ _))
    have hrest : countTrue rest ≤ rest.length * size :=
      ih fun r hr => h r (List.mem_cons_of_mem _ hr)
    show (row.filter id).length + countTrue rest ≤ (rest.length + 1) * size
    rw [Nat.succ_mul]
    omega

theorem countTrue_le {size : Nat} {m : List (List Bool)} (h : ShapedM size m) :
    countTrue m ≤ size * size := by
  have := countTrue_le_aux m size fun row hr => le_of_eq (h.2 row hr)
  rw [h.1] at this
  exact this

/-! ### Edge insertion -/

theorem lor_lt_16 {a b : Nat} (ha : a < 16) (hb : b < 16) : a ||| b < 16 := by
  show a ||| b < 2 ^ 4
  apply Nat.lt_pow_two_of_testBit
  intro i hi
  have hpow : (16 : Nat) ≤ 2 ^ i := by
    calc (16 : Nat) = 2 ^ 4 := rfl
      _ ≤ 2 ^ i := Nat.pow_le_pow_right (by omega) hi
  rw [Nat.testBit_lor, Nat.testBit_lt_two_pow (by omega), Nat.testBit_lt_two_pow (by omega)]
  rfl

theorem connBit_addEdge {size : Nat} {conns : List (List Nat)} (h : ShapedM size conns)
    {p q : Coords} (hp : inRange size p) (hq : inRange size q) (hpq : q ≠ p) (d : Dir)
    (x : Coords) (hx : inRange size x) (e : Dir) :
    (connBit (addEdge conns p q d) x e ↔
      connBit conns x e ∨ (x = p ∧ e = d) ∨ (x = q ∧ e = d.opp)) := by
  have hshape1 : ShapedM size (setC conns p.r p.c (getC conns p.r p.c ||| d.mask)) :=
    shapedM_setM h hp _
  have hq_mid : getC (setC conns p.r p.c (getC conns p.r p.c ||| d.mask)) q.r q.c
      = getC conns q.r q.c := getM_setM_ne h hp hq hpq _ _
  by_cases hxq : x = q
  · subst hxq
    have hmask : getC (addEdge conns p x d) x.r x.c
        = getC conns x.r x.c ||| d.opp.mask :=
      (getM_setM_self hshape1 hq 0 _).trans (by rw [hq_mid])
    unfold connBit
    rw [hmask, hasBit_lor, hasBit_mask_iff]
    constructor
    · rintro (hb | hb)
      · exact Or.inl hb
      · exact Or.inr (Or.inr ⟨rfl, hb.symm⟩)
    · rintro (hb | ⟨hxp, he⟩ | ⟨_, he⟩)
      · exact Or.inl hb
      · exact absurd hxp hpq
      · exact Or.inr he.symm
  · by_cases hxp : x = p
    · subst hxp
      have hmask : getC (addEdge conns x q d) x.r x.c
          = getC conns x.r x.c ||| d.mask :=
        (getM_setM_ne hshape1 hq hx (fun hc => hxq hc) 0 _).trans
          (getM_setM_self h hp 0 _)
      unfold connBit
      rw [hmask, hasBit_lor, hasBit_mask_iff]
      constructor
      · rintro (hb | hb)
        · exact Or.inl hb
        · exact Or.inr (Or.inl ⟨rfl, hb.symm⟩)
      · rintro (hb | ⟨_, he⟩ | ⟨hxq', _⟩)
        · exact Or.inl hb
        · exact Or.inr he.symm
        · exact absurd hxq' hxq
    · have hmask : getC (addEdge conns p q d) x.r x.c = getC conns x.r x.c :=
        (getM_setM_ne hshape1 hq hx (fun hc => hxq hc) 0 _).trans
          (getM_setM_ne h hp hx (fun hc => hxp hc) 0 _)
      unfold connBit
      rw [hmask]
      constructor
      · intro hb; exact Or.inl hb
      · rintro (hb | ⟨hc, _⟩ | ⟨hc, _⟩)
        · exact hb
        · exact absurd hc hxp
        · exact absurd hc hxq

theorem shapedM_addEdge {size : Nat} {conns : List (List Nat)} (h : ShapedM size conns)
    {p q : Coords} (hp : inRange size p) (hq : inRange size q) (d : Dir) :
    ShapedM size (addEdge conns p q d) :=
  shapedM_setM (shapedM_setM h hp _) hq _

theorem mask_lt_addEdge {size : Nat} {conns : List (List Nat)} (h : ShapedM size conns)
    {p q : Coords} (hp : inRange size p) (hq : inRange size q) (hpq : q ≠ p) (d : Dir)
    (hlt : ∀ x, inRange size x → getC conns x.r x.c < 16)
    (x : Coords) (hx : inRange size x) : getC (addEdge conns p q d) x.r x.c < 16 := by
  have hshape1 : ShapedM size (setC conns p.r p.c (getC conns p.r p.c ||| d.mask)) :=
    shapedM_setM h hp _
  have hq_mid : getC (setC conns p.r p.c (getC conns p.r p.c ||| d.mask)) q.r q.c
      = getC conns q.r q.c := getM_setM_ne h hp hq hpq _ _
  have hdm : d.mask < 16 := by cases d <;> decide
  have hdo : d.opp.mask < 16 := by cases d <;> decide
  by_cases hxq : x = q
  · subst hxq
    have hmask : getC (addEdge conns p x d) x.r x.c
        = getC conns x.r x.c ||| d.opp.mask :=
      (getM_setM_self hshape1 hq 0 _).trans (by rw [hq_mid])
    rw [hmask]
    exact lor_lt_16 (hlt x hx) hdo
  · by_cases hxp : x = p
    · subst hxp
      have hmask : getC (addEdge conns x q d) x.r x.c
          = getC conns x.r x.c ||| d.mask :=
        (getM_setM_ne hshape1 hq hx (fun hc => hxq hc) 0 _).trans
          (getM_setM_self h hp 0 _)
      rw [hmask]
      exact lor_lt_16 (hlt x hx) hdm
    · have hmask : getC (addEdge conns p q d) x.r x.c = getC conns x.r x.c :=
        (getM_setM_ne hshape1 hq hx (fun hc => hxq hc) 0 _).trans
          (getM_setM_ne h hp hx (fun hc => hxp hc) 0 _)
      rw [hmask]
      exact hlt x hx

theorem Dir.opp_inj {d e : Dir} (h : d.opp = e.opp) : d = e := by
  have := congrArg Dir.opp h
  rwa [Dir.opp_opp, Dir.opp_opp] at this

theorem recip_addEdge {size : Nat} {isWrapping : Bool} {conns : List (List Nat)}
    (h2 : 2 ≤ size) (h : ShapedM size conns) (hrec : Recip size isWrapping conns)
    {p : Coords} (hp : inRange size p) (d : Dir)
    (hok : topoOk isWrapping size (topoNext isWrapping size p d)) :
    Recip size isWrapping (addEdge conns p (topoNext isWrapping size p d) d) := by
  have hs : 0 < size := by omega
  set q := topoNext isWrapping size p d with hqdef
  have hqin : inRange size q := inRange_topoNext hs d hok
  have hqp : q ≠ p := topoNext_ne h2 hp d
  have hback : topoNext isWrapping size q d.opp = p := topoNext_topoNext_opp hp d
  have hbackok : topoOk isWrapping size (topoNext isWrapping size q d.opp) := by
    rw [hback]
    cases isWrapping with
    | false => exact Or.inr hp
    | true => exact Or.inl rfl
  intro x hx e
  by_cases hOK : topoOk isWrapping size (topoNext isWrapping size x e)
  · have hnbin : inRange size (topoNext isWrapping size x e) := inRange_topoNext hs e hOK
    rw [connBit_addEdge h hp hqin hqp d x hx e,
      connBit_addEdge h hp hqin hqp d (topoNext isWrapping size x e) hnbin e.opp]
    have hAiff : connBit conns x e ↔
        connBit conns (topoNext isWrapping size x e) e.opp := by
      rw [hrec x hx e]
      constructor
      · intro ha; exact ha.2
      · intro ha; exact ⟨hOK, ha⟩
    constructor
    · rintro (hA | ⟨hxp, hed⟩ | ⟨hxq, hed⟩)
      · exact ⟨hOK, Or.inl (hAiff.mp hA)⟩
      · subst hxp
        subst hed
        refine ⟨hOK, Or.inr (Or.inr ⟨rfl, rfl⟩)⟩
      · subst hxq
        subst hed
        refine ⟨hOK, Or.inr (Or.inl ⟨hback, Dir.opp_opp d⟩)⟩
    · rintro ⟨_, hA | ⟨hnbp, heo⟩ | ⟨hnbq, heo⟩⟩
      · exact Or.inl (hAiff.mpr hA)
      · -- the neighbor is p and the queried bit is exactly the one added at p
        have he : e = d.opp := by
          have := congrArg Dir.opp heo
          rwa [Dir.opp_opp] at this
        subst he
        have hxq : x = q := by
          have hinv := @topoNext_topoNext_opp isWrapping size x hx d.opp
          rw [hnbp] at hinv
          rw [← hinv, Dir.opp_opp, ← hqdef]
        exact Or.inr (Or.inr ⟨hxq, rfl⟩)
      · -- the neighbor is q and the queried bit is the one added at q
        have he : e = d := Dir.opp_inj heo
        subst he
        have hxp : x = p := by
          have hinv := @topoNext_topoNext_opp isWrapping size x hx e
          rw [hnbq] at hinv
          rw [← hinv, hqdef, hback]
        exact Or.inr (Or.inl ⟨hxp, rfl⟩)
  · constructor
    · intro hL
      rw [connBit_addEdge h hp hqin hqp d x hx e] at hL
      rcases hL with hA | ⟨hxp, hed⟩ | ⟨hxq, hed⟩
      · exact absurd ((hrec x hx e).mp hA).1 hOK
      · subst hxp; subst hed
        exact absurd hok hOK
      · subst hxq; subst hed
        exact absurd hbackok hOK
    · rintro ⟨hOK2, _⟩
      exact absurd hOK2 hOK

theorem getC_addEdge_p {size : Nat} {conns : List (List Nat)} (h : ShapedM size conns)
    {p q : Coords} (hp : inRange size p) (hq : inRange size q) (hpq : q ≠ p) (d : Dir) :
    getC (addEdge conns p q d) p.r p.c = getC conns p.r p.c ||| d.mask :=
  (getM_setM_ne (shapedM_setM h hp _) hq hp (fun hc => hpq hc.symm) 0 _).trans
    (getM_setM_self h hp 0 _)

theorem getC_addEdge_q {size : Nat} {conns : List (List Nat)} (h : ShapedM size conns)
    {p q : Coords} (hp : inRange size p) (hq : inRange size q) (hpq : q ≠ p) (d : Dir) :
    getC (addEdge conns p q d) q.r q.c = getC conns q.r q.c ||| d.opp.mask :=
  (getM_setM_self (shapedM_setM h hp _) hq 0 _).trans
    (by rw [show getC (setC conns p.r p.c (getC conns p.r p.c ||| d.mask)) q.r q.c
        = getC conns q.r q.c from getM_setM_ne h hp hq hpq _ _])

theorem getC_addEdge_other {size : Nat} {conns : List (List Nat)} (h : ShapedM size conns)
    {p q x : Coords} (hp : inRange size p) (hq : inRange size q) (hx : inRange size x)
    (hxp : x ≠ p) (hxq : x ≠ q) (d : Dir) :
    getC (addEdge conns p q d) x.r x.c = getC conns x.r x.c :=
  (getM_setM_ne (shapedM_setM h hp _) hq hx hxq 0 _).trans
    (getM_setM_ne h hp hx hxp 0 _)

theorem lor_ne_zero_left {a b : Nat} (ha : a ≠ 0) : a ||| b ≠ 0 := by
  intro h
  exact ha (lor_eq_zero_iff.mp h).1

theorem mask_ne_zero (d : Dir) : d.mask ≠ 0 := by cases d <;> decide

/-- A cell's mask never shrinks under `addEdge`. -/
theorem mask_nonzero_addEdge {size : Nat} {conns : List (List Nat)} (h : ShapedM size conns)
    {p q x : Coords} (hp : inRange size p) (hq : inRange size q) (hpq : q ≠ p)
    (hx : inRange size x) (d : Dir) (hnz : getC conns x.r x.c ≠ 0) :
    getC (addEdge conns p q d) x.r x.c ≠ 0 := by
  by_cases hxp : x = p
  · subst hxp
    rw [getC_addEdge_p h hx hq hpq d]
    exact lor_ne_zero_left hnz
  · by_cases hxq : x = q
    · subst hxq
      rw [getC_addEdge_q h hp hx hpq d]
      exact lor_ne_zero_left hnz
    · rw [getC_addEdge_other h hp hq hx hxp hxq d]
      exact hnz

theorem GEdge_addEdge_mono {size : Nat} {isWrapping : Bool} {conns : List (List Nat)}
    (h : ShapedM size conns) {p q : Coords} (hp : inRange size p) (hq : inRange size q)
    (hpq : q ≠ p) (d : Dir) {a b : Coords}
    (he : GEdge size isWrapping conns a b) :
    GEdge size isWrapping (addEdge conns p q d) a b := by
  obtain ⟨ha, e, hbit, hok, heq⟩ := he
  exact ⟨ha, e, (connBit_addEdge h hp hq hpq d a ha e).mpr (Or.inl hbit), hok, heq⟩

theorem GReach_addEdge_mono {size : Nat} {isWrapping : Bool} {conns : List (List Nat)}
    (h : ShapedM size conns) {p q : Coords} (hp : inRange size p) (hq : inRange size q)
    (hpq : q ≠ p) (d : Dir) {a b : Coords}
    (hr : GReach size isWrapping conns a b) :
    GReach size isWrapping (addEdge conns p q d) a b :=
  Relation.ReflTransGen.mono (fun _ _ he => GEdge_addEdge_mono h hp hq hpq d he) hr

theorem mem_walkNeighbors {isWrapping : Bool} {size : Nat} {visited : List (List Bool)}
    {p : Coords} {qd : Coords × Dir} :
    qd ∈ walkNeighbors isWrapping size visited p ↔
      (qd.1 = topoNext isWrapping size p qd.2 ∧ topoOk isWrapping size qd.1 ∧
        ¬(getV visited qd.1.r qd.1.c = true)) := by
  unfold walkNeighbors
  rw [List.mem_filterMap]
  constructor
  · rintro ⟨d, _, hf⟩
    by_cases hcond : topoOk isWrapping size (topoNext isWrapping size p d) ∧
        ¬(getV visited (topoNext isWrapping size p d).r
          (topoNext isWrapping size p d).c = true)
    · rw [if_pos hcond] at hf
      obtain ⟨rfl⟩ := Option.some_injective _ hf
      exact ⟨rfl, hcond.1, hcond.2⟩
    · rw [if_neg hcond] at hf
      exact absurd hf (Option.noConfusion)
  · rintro ⟨h1, h2, h3⟩
    refine ⟨qd.2, Dir.mem_DIRECTIONS _, ?_⟩
    rw [if_pos (by rw [← h1]; exact ⟨h2, h3⟩)]
    rw [← h1]

theorem walkNeighbors_nil {isWrapping : Bool} {size : Nat} {visited : List (List Bool)}
    {p : Coords} (h : walkNeighbors isWrapping size visited p = []) :
    ∀ d, topoOk isWrapping size (topoNext isWrapping size p d) →
      getV visited (topoNext isWrapping size p d).r
        (topoNext isWrapping size p d).c = true := by
  intro d hok
  by_contra hv
  have : ((topoNext isWrapping size p d, d) : Coords × Dir)
      ∈ walkNeighbors isWrapping size visited p :=
    mem_walkNeighbors.mpr ⟨rfl, hok, hv⟩
  rw [h] at this
  simp at this

theorem exists_topoOk_dir {isWrapping : Bool} {size : Nat} (h2 : 2 ≤ size) {p : Coords}
    (hp : inRange size p) :
    ∃ d, topoOk isWrapping size (topoNext isWrapping size p d) := by
  cases isWrapping with
  | true => exact ⟨.N, Or.inl rfl⟩
  | false =>
    obtain ⟨h1, hr1, h3, h4⟩ := hp
    by_cases hup : p.r + 1 < (size : Int)
    · refine ⟨.S, Or.inr ?_⟩
      show 0 ≤ p.r + 1 ∧ p.r + 1 < (size : Int) ∧ 0 ≤ p.c + 0 ∧ p.c + 0 < (size : Int)
      omega
    · refine ⟨.N, Or.inr ?_⟩
      show 0 ≤ p.r + -1 ∧ p.r + -1 < (size : Int) ∧ 0 ≤ p.c + 0 ∧ p.c + 0 < (size : Int)
      omega

theorem lor_ne_zero_right {a b : Nat} (hb : b ≠ 0) : a ||| b ≠ 0 := by
  intro h
  exact hb (lor_eq_zero_iff.mp h).2

theorem getV_setV_true {size : Nat} {m : List (List Bool)} (h : ShapedM size m)
    {q : Coords} (hq : inRange size q) :
    getV (setV m q.r q.c true) q.r q.c = true :=
  getM_setM_self h hq false true

theorem getV_setV_of_true {size : Nat} {m : List (List Bool)} (h : ShapedM size m)
    {q x : Coords} (hq : inRange size q) (hx : inRange size x)
    (hv : getV m x.r x.c = true) :
    getV (setV m q.r q.c true) x.r x.c = true := by
  by_cases hxq : x = q
  · subst hxq
    exact getV_setV_true h hq
  · rw [show getV (setV m q.r q.c true) x.r x.c = getV m x.r x.c from
      getM_setM_ne h hq hx hxq false true]
    exact hv

theorem getV_setV_ne {size : Nat} {m : List (List Bool)} (h : ShapedM size m)
    {q x : Coords} (hq : inRange size q) (hx : inRange size x) (hxq : x ≠ q) :
    getV (setV m q.r q.c true) x.r x.c = getV m x.r x.c :=
  getM_setM_ne h hq hx hxq false true

theorem walkInv_pop {size : Nat} {isWrapping : Bool} {start : Coords}
    (h2 : 2 ≤ size) (hstart : inRange size start) {s : WalkState}
    (inv : WalkInv size isWrapping start s) {p : Coords} {rest : List Coords}
    (hq : s.stack = p :: rest)
    (hns : walkNeighbors isWrapping size s.visited p = []) :
    WalkInv size isWrapping start { s with stack := rest } := by
  have hs : 0 < size := by omega
  refine ⟨inv.shape_conns, inv.shape_visited, inv.recip, inv.mask_lt, ?_, ?_,
    inv.start_visited, inv.visited_reach, ?_, inv.mask_nonzero, ?_⟩
  · intro x hx
    exact inv.stack_inRange x (by rw [hq]; exact List.mem_cons_of_mem _ hx)
  · intro x hx
    exact inv.stack_visited x (by rw [hq]; exact List.mem_cons_of_mem _ hx)
  · intro x hxin hxv hxstk d hok
    by_cases hxp : x = p
    · subst hxp
      exact walkNeighbors_nil hns d hok
    · refine inv.popped_closed x hxin hxv ?_ d hok
      rw [hq]
      intro hmem
      rcases List.mem_cons.mp hmem with hmem | hmem
      · exact hxp hmem
      · exact hxstk hmem
  · rcases inv.start_mask with hnz | ⟨hstk, honly⟩
    · exact Or.inl hnz
    · exfalso
      have hps : p = start := by
        rw [hq] at hstk
        exact (List.cons.injEq _ _ _ _).mp hstk |>.1
      subst hps
      obtain ⟨d, hok⟩ := exists_topoOk_dir h2 hstart
      have hvis := walkNeighbors_nil hns d hok
      have hqin : inRange size (topoNext isWrapping size p d) := inRange_topoNext hs d hok
      have hne : topoNext isWrapping size p d ≠ p := topoNext_ne h2 hstart d
      have := honly (topoNext isWrapping size p d) hqin hne
      rw [hvis] at this
      exact Bool.noConfusion this

theorem walkInv_push {size : Nat} {isWrapping : Bool} {start : Coords}
    (h2 : 2 ≤ size) (hstart : inRange size start) {s : WalkState}
    (inv : WalkInv size isWrapping start s) {p : Coords} {rest : List Coords}
    (hq : s.stack = p :: rest) {q : Coords} {d : Dir}
    (hmem : ((q, d) : Coords × Dir) ∈ walkNeighbors isWrapping size s.visited p)
    (j : Nat) :
    WalkInv size isWrapping start
      ⟨addEdge s.connections p q d, setV s.visited q.r q.c true, q :: p :: rest, j⟩ ∧
    countTrue (setV s.visited q.r q.c true) = countTrue s.visited + 1 := by
  have hs : 0 < size := by omega
  obtain ⟨hqe, hok, hunvis⟩ := mem_walkNeighbors.mp hmem
  simp only at hqe hok hunvis
  have hp : inRange size p := inv.stack_inRange p (by rw [hq]; exact List.mem_cons_self _ _)
  have hpv : getV s.visited p.r p.c = true :=
    inv.stack_visited p (by rw [hq]; exact List.mem_cons_self _ _)
  have hqin : inRange size q := by
    rw [hqe]
    exact inRange_topoNext hs d (hqe ▸ hok)
  have hqp : q ≠ p := by
    rw [hqe]
    exact topoNext_ne h2 hp d
  have hqs : q ≠ start := by
    intro hcontr
    rw [hcontr] at hunvis
    exact hunvis inv.start_visited
  have hmono : ∀ x, inRange size x → getV s.visited x.r x.c = true →
      getV (setV s.visited q.r q.c true) x.r x.c = true := fun x hx hv =>
    getV_setV_of_true inv.shape_visited hqin hx hv
  have hreachmono : ∀ a b, GReach size isWrapping s.connections a b →
      GReach size isWrapping (addEdge s.connections p q d) a b := fun a b hr =>
    GReach_addEdge_mono inv.shape_conns hp hqin hqp d hr
  have hfalse : getV s.visited q.r q.c = false := by
    cases hvq : getV s.visited q.r q.c with
    | false => rfl
    | true => exact absurd hvq hunvis
  refine ⟨⟨?_, ?_, ?_, ?_, ?_, ?_, ?_, ?_, ?_, ?_, ?_⟩, ?_⟩
  · exact shapedM_addEdge inv.shape_conns hp hqin d
  · exact shapedM_setM inv.shape_visited hqin true
  · rw [hqe]
    exact recip_addEdge h2 inv.shape_conns inv.recip hp d (hqe ▸ hok)
  · exact mask_lt_addEdge inv.shape_conns hp hqin hqp d inv.mask_lt
  · intro x hx
    rcases List.mem_cons.mp hx with hx | hx
    · exact hx ▸ hqin
    · rcases List.mem_cons.mp hx with hx | hx
      · exact hx ▸ hp
      · exact inv.stack_inRange x (by rw [hq]; exact List.mem_cons_of_mem _ hx)
  · intro x hx
    rcases List.mem_cons.mp hx with hx | hx
    · subst hx
      exact getV_setV_true inv.shape_visited hqin
    · rcases List.mem_cons.mp hx with hx | hx
      · subst hx
        exact hmono x hp hpv
      · exact hmono x
          (inv.stack_inRange x (by rw [hq]; exact List.mem_cons_of_mem _ hx))
          (inv.stack_visited x (by rw [hq]; exact List.mem_cons_of_mem _ hx))
  · exact hmono start hstart inv.start_visited
  · intro x hxin hxv
    by_cases hxq : x = q
    · subst hxq
      refine Relation.ReflTransGen.tail (hreachmono start p (inv.visited_reach p hp hpv)) ?_
      refine ⟨hp, d, ?_, hqe ▸ hok, hqe⟩
      exact (connBit_addEdge inv.shape_conns hp hqin hqp d p hp d).mpr
        (Or.inr (Or.inl ⟨rfl, rfl⟩))
    · rw [getV_setV_ne inv.shape_visited hqin hxin hxq] at hxv
      exact hreachmono start x (inv.visited_reach x hxin hxv)
  · intro x hxin hxv hxstk e hoke
    have hxq : x ≠ q := fun hc => hxstk (by rw [hc]; exact List.mem_cons_self _ _)
    have hxp : x ≠ p := fun hc =>
      hxstk (by rw [hc]; exact List.mem_cons_of_mem _ (List.mem_cons_self _ _))
    rw [getV_setV_ne inv.shape_visited hqin hxin hxq] at hxv
    have hold := inv.popped_closed x hxin hxv
      (by rw [hq]; intro hmem2; rcases List.mem_cons.mp hmem2 with h | h
          exacts [hxp h, hxstk (List.mem_cons_of_mem _ (List.mem_cons_of_mem _ h))])
      e hoke
    exact hmono _ (inRange_topoNext hs e hoke) hold
  · intro x hxin hxs hxv
    by_cases hxq : x = q
    · subst hxq
      rw [getC_addEdge_q inv.shape_conns hp hxin hqp d]
      exact lor_ne_zero_right (mask_ne_zero d.opp)
    · rw [getV_setV_ne inv.shape_visited hqin hxin hxq] at hxv
      exact mask_nonzero_addEdge inv.shape_conns hp hqin hqp hxin d
        (inv.mask_nonzero x hxin hxs hxv)
  · rcases inv.start_mask with hnz | ⟨hstk, _⟩
    · exact Or.inl (mask_nonzero_addEdge inv.shape_conns hp hqin hqp hstart d hnz)
    · have hps : p = start := by
        rw [hq] at hstk
        exact (List.cons.injEq _ _ _ _).mp hstk |>.1
      subst hps
      refine Or.inl ?_
      rw [getC_addEdge_p inv.shape_conns hstart hqin hqp d]
      exact lor_ne_zero_right (mask_ne_zero d)
  · exact countTrue_setV inv.shape_visited hqin hfalse

theorem walkLoop_succ_cons (w : Bool) (size : Nat) (rng : Nat → Nat) (n : Nat)
    (conns : List (List Nat)) (vis : List (List Bool)) (p : Coords)
    (rest : List Coords) (i : Nat) :
    walkLoop w size rng (n + 1) ⟨conns, vis, p :: rest, i⟩ =
      (if (walkNeighbors w size vis p).isEmpty then
        walkLoop w size rng n ⟨conns, vis, rest, i⟩
      else
        walkLoop w size rng n
          ⟨addEdge conns p
              ((walkNeighbors w size vis p).getD
                (rng i % (walkNeighbors w size vis p).length) default).1
              ((walkNeighbors w size vis p).getD
                (rng i % (walkNeighbors w size vis p).length) default).2,
            setV vis
              ((walkNeighbors w size vis p).getD
                (rng i % (walkNeighbors w size vis p).length) default).1.r
              ((walkNeighbors w size vis p).getD
                (rng i % (walkNeighbors w size vis p).length) default).1.c true,
            ((walkNeighbors w size vis p).getD
              (rng i % (walkNeighbors w size vis p).length) default).1 :: p :: rest,
            i + 1⟩) := rfl

theorem walkLoop_final {size : Nat} {w : Bool} {start : Coords}
    (h2 : 2 ≤ size) (hstart : inRange size start) (rng : Nat → Nat) :
    ∀ (fuel : Nat) (s : WalkState), WalkInv size w start s →
      walkMeasure size s ≤ fuel →
      (walkLoop w size rng fuel s).stack = [] ∧
      WalkInv size w start (walkLoop w size rng fuel s) := by
  intro fuel
  induction fuel with
  | zero =>
    intro s inv hm
    have hlen : s.stack.length = 0 := by
      unfold walkMeasure at hm
      omega
    exact ⟨List.length_eq_zero.mp hlen, inv⟩
  | succ n ih =>
    intro s inv hm
    obtain ⟨conns, vis, stack, i⟩ := s
    cases stack with
    | nil => exact ⟨rfl, inv⟩
    | cons p rest =>
      rw [walkLoop_succ_cons]
      cases hns : walkNeighbors w size vis p with
      | nil =>
        simp only [hns, List.isEmpty_nil, if_true]
        have inv' := walkInv_pop h2 hstart inv rfl hns
        apply ih _ inv'
        unfold walkMeasure at hm ⊢
        simp only [List.length_cons] at hm ⊢
        omega
      | cons hd tl =>
        simp only [hns, List.isEmpty_cons, Bool.false_eq_true, if_false]
        have hk : rng i % (hd :: tl).length < (hd :: tl).length :=
          Nat.mod_lt _ (by simp)
        have hmem : (hd :: tl).getD (rng i % (hd :: tl).length) default ∈ hd :: tl :=
          getD_mem_self hk default
        have hmem' : (((hd :: tl).getD (rng i % (hd :: tl).length) default).1,
            ((hd :: tl).getD (rng i % (hd :: tl).length) default).2) ∈
            walkNeighbors w size vis p := by
          rw [hns]
          exact hmem
        obtain ⟨inv', hcount⟩ := walkInv_push h2 hstart inv rfl hmem' (i + 1)
        apply ih _ inv'
        have hctK : countTrue vis + 1 ≤ size * size := by
          rw [← hcount]
          exact countTrue_le inv'.shape_visited
        unfold walkMeasure at hm ⊢
        rw [hcount]
        simp only [List.length_cons] at hm ⊢
        have h1 : size * size - countTrue vis
            = (size * size - (countTrue vis + 1)) + 1 := by omega
        have hexp : (size * size + 1) * (size * size - countTrue vis)
            = (size * size + 1) * (size * size - (countTrue vis + 1))
              + (size * size + 1) := by
          rw [h1, Nat.mul_add, Nat.mul_one]
        omega

theorem getD_replicate {α : Type} {n i : Nat} (h : i < n) (x d : α) :
    (List.replicate n x).getD i d = x := by
  rw [List.getD_eq_getElem?_getD, List.getElem?_replicate, if_pos h]
  rfl

theorem getM_replicate {α : Type} {size : Nat} {p : Coords} (hp : inRange size p)
    (x d : α) : getM (List.replicate size (List.replicate size x)) d p.r p.c = x := by
  obtain ⟨h1, h2, h3, h4⟩ := hp
  show ((List.replicate size (List.replicate size x)).getD p.r.toNat []).getD p.c.toNat d = x
  rw [getD_replicate (show p.r.toNat < size by omega),
    getD_replicate (show p.c.toNat < size by omega)]

theorem topoNext_eq_rawNext {w : Bool} {size : Nat} {p : Coords} {d : Dir}
    (hin : inRange size (rawNext p d)) :
    topoOk w size (topoNext w size p d) ∧ topoNext w size p d = rawNext p d := by
  cases w with
  | false => exact ⟨Or.inr hin, rfl⟩
  | true =>
    obtain ⟨h1, h2, h3, h4⟩ := hin
    have hs : 0 < size := by omega
    have he : topoNext true size p d
        = ⟨wrapCoord size (rawNext p d).r, wrapCoord size (rawNext p d).c⟩ := rfl
    rw [he, wrapCoord_id hs h1 h2, wrapCoord_id hs h3 h4]
    exact ⟨Or.inl rfl, rfl⟩

theorem walkInv_init {size : Nat} {w : Bool} (hs : 0 < size) {start : Coords}
    (hstart : inRange size start) (i : Nat) :
    WalkInv size w start
      ⟨List.replicate size (List.replicate size 0),
       setV (List.replicate size (List.replicate size false)) start.r start.c true,
       [start], i⟩ := by
  have hshC : ShapedM size (List.replicate size (List.replicate (α := Nat) size 0)) :=
    shapedM_replicate size 0
  have hshV0 : ShapedM size (List.replicate size (List.replicate size false)) :=
    shapedM_replicate size false
  have hget0 : ∀ p : Coords, inRange size p →
      getC (List.replicate size (List.replicate size 0)) p.r p.c = 0 := fun p hp =>
    getM_replicate hp 0 0
  have hvother : ∀ p : Coords, inRange size p → p ≠ start →
      getV (setV (List.replicate size (List.replicate size false)) start.r start.c true)
        p.r p.c = false := by
    intro p hp hne
    rw [getV_setV_ne hshV0 hstart hp hne]
    exact getM_replicate hp false false
  refine ⟨hshC, shapedM_setM hshV0 hstart true, ?_, ?_, ?_, ?_, ?_, ?_, ?_, ?_, ?_⟩
  · intro p hp d
    constructor
    · intro hb
      exact absurd (hget0 p hp) (hasBit_ne_zero hb)
    · rintro ⟨hok, hb⟩
      exact absurd (hget0 _ (inRange_topoNext hs d hok)) (hasBit_ne_zero hb)
  · intro p hp
    rw [hget0 p hp]
    omega
  · intro p hp
    rw [List.mem_singleton] at hp
    subst hp
    exact hstart
  · intro p hp
    rw [List.mem_singleton] at hp
    subst hp
    exact getV_setV_true hshV0 hstart
  · exact getV_setV_true hshV0 hstart
  · intro p hp hv
    by_cases hne : p = start
    · subst hne
      exact Relation.ReflTransGen.refl
    · rw [hvother p hp hne] at hv
      exact Bool.noConfusion hv
  · intro p hp hv hstk
    by_cases hne : p = start
    · subst hne
      exact absurd (List.mem_singleton.mpr rfl) hstk
    · rw [hvother p hp hne] at hv
      exact Bool.noConfusion hv
  · intro p hp hne hv
    rw [hvother p hp hne] at hv
    exact Bool.noConfusion hv
  · exact Or.inr ⟨rfl, hvother⟩

theorem visited_closed_all {size : Nat} {w : Bool} {start : Coords}
    {V : List (List Bool)}
    (hstart : inRange size start)
    (hstartV : getV V start.r start.c = true)
    (hcl : ∀ p, inRange size p → getV V p.r p.c = true →
      ∀ d, topoOk w size (topoNext w size p d) →
        getV V (topoNext w size p d).r (topoNext w size p d).c = true) :
    ∀ t, inRange size t → getV V t.r t.c = true := by
  have step_to : ∀ p, inRange size p → getV V p.r p.c = true →
      ∀ d, inRange size (rawNext p d) →
        getV V (rawNext p d).r (rawNext p d).c = true := by
    intro p hp hv d hin
    obtain ⟨hok, heq⟩ := topoNext_eq_rawNext (w := w) hin
    have := hcl p hp hv d hok
    rw [heq] at this
    exact this
  have row_step : ∀ n : Nat, ∀ p : Coords, inRange size p → getV V p.r p.c = true →
      ∀ q : Coords, inRange size q → q.c = p.c → (q.r - p.r).natAbs = n →
        getV V q.r q.c = true := by
    intro n
    induction n with
    | zero =>
      intro p hp hv q _ hqc hn
      have hqr : q.r = p.r := by omega
      rw [hqr, hqc]
      exact hv
    | succ n ih =>
      intro p hp hv q hq hqc hn
      rcases lt_trichotomy p.r q.r with hlt | heq | hgt
      · have hin : inRange size (rawNext p Dir.S) := by
          show 0 ≤ p.r + 1 ∧ p.r + 1 < (size : Int) ∧ 0 ≤ p.c + 0 ∧ p.c + 0 < (size : Int)
          obtain ⟨a1, a2, a3, a4⟩ := hp
          obtain ⟨b1, b2, b3, b4⟩ := hq
          omega
        refine ih (rawNext p Dir.S) hin (step_to p hp hv Dir.S hin) q hq ?_ ?_
        · show q.c = p.c + 0
          omega
        · show (q.r - (p.r + 1)).natAbs = n
          omega
      · exact absurd hn (by omega)
      · have hin : inRange size (rawNext p Dir.N) := by
          show 0 ≤ p.r + -1 ∧ p.r + -1 < (size : Int) ∧ 0 ≤ p.c + 0 ∧ p.c + 0 < (size : Int)
          obtain ⟨a1, a2, a3, a4⟩ := hp
          obtain ⟨b1, b2, b3, b4⟩ := hq
          omega
        refine ih (rawNext p Dir.N) hin (step_to p hp hv Dir.N hin) q hq ?_ ?_
        · show q.c = p.c + 0
          omega
        · show (q.r - (p.r + -1)).natAbs = n
          omega
  have col_step : ∀ n : Nat, ∀ p : Coords, inRange size p → getV V p.r p.c = true →
      ∀ q : Coords, inRange size q → q.r = p.r → (q.c - p.c).natAbs = n →
        getV V q.r q.c = true := by
    intro n
    induction n with
    | zero =>
      intro p hp hv q _ hqr hn
      have hqc : q.c = p.c := by omega
      rw [hqr, hqc]
      exact hv
    | succ n ih =>
      intro p hp hv q hq hqr hn
      rcases lt_trichotomy p.c q.c with hlt | heq | hgt
      · have hin : inRange size (rawNext p Dir.E) := by
          show 0 ≤ p.r + 0 ∧ p.r + 0 < (size : Int) ∧ 0 ≤ p.c + 1 ∧ p.c + 1 < (size : Int)
          obtain ⟨a1, a2, a3, a4⟩ := hp
          obtain ⟨b1, b2, b3, b4⟩ := hq
          omega
        refine ih (rawNext p Dir.E) hin (step_to p hp hv Dir.E hin) q hq ?_ ?_
        · show q.r = p.r + 0
          omega
        · show (q.c - (p.c + 1)).natAbs = n
          omega
      · exact absurd hn (by omega)
      · have hin : inRange size (rawNext p Dir.W) := by
          show 0 ≤ p.r + 0 ∧ p.r + 0 < (size : Int) ∧ 0 ≤ p.c + -1 ∧ p.c + -1 < (size : Int)
          obtain ⟨a1, a2, a3, a4⟩ := hp
          obtain ⟨b1, b2, b3, b4⟩ := hq
          omega
        refine ih (rawNext p Dir.W) hin (step_to p hp hv Dir.W hin) q hq ?_ ?_
        · show q.r = p.r + 0
          omega
        · show (q.c - (p.c + -1)).natAbs = n
          omega
  intro t ht
  obtain ⟨a1, a2, a3, a4⟩ := ht
  obtain ⟨b1, b2, b3, b4⟩ := hstart
  have hmid : inRange size ⟨t.r, start.c⟩ := ⟨a1, a2, b3, b4⟩
  have h1 : getV V (⟨t.r, start.c⟩ : Coords).r (⟨t.r, start.c⟩ : Coords).c = true :=
    row_step ((t.r - start.r).natAbs) start ⟨b1, b2, b3, b4⟩ hstartV
      ⟨t.r, start.c⟩ hmid rfl rfl
  exact col_step ((t.c - start.c).natAbs) ⟨t.r, start.c⟩ hmid h1 t ⟨a1, a2, a3, a4⟩ rfl rfl

theorem walkStart_inRange {size : Nat} (hs : 0 < size) (rng : Nat → Nat) :
    inRange size (walkStart size rng) := by
  have hm0 : rng 0 % size < size := Nat.mod_lt _ hs
  have hm1 : rng 1 % size < size := Nat.mod_lt _ hs
  refine ⟨Int.natCast_nonneg _, ?_, Int.natCast_nonneg _, ?_⟩
  · show ((rng 0 % size : Nat) : Int) < (size : Int)
    exact_mod_cast hm0
  · show ((rng 1 % size : Nat) : Int) < (size : Int)
    exact_mod_cast hm1

theorem runWalk_spec {size : Nat} (h2 : 2 ≤ size) (w : Bool) (rng : Nat → Nat) :
    (runWalk w size rng).stack = [] ∧
    WalkInv size w (walkStart size rng) (runWalk w size rng) := by
  have hs : 0 < size := by omega
  have hstart := walkStart_inRange hs rng
  have hinv := walkInv_init (w := w) hs hstart 2
  have hmeas : walkMeasure size
      ⟨List.replicate size (List.replicate size 0),
       setV (List.replicate size (List.replicate size false))
         (walkStart size rng).r (walkStart size rng).c true,
       [walkStart size rng], 2⟩ ≤ walkFuel size := by
    have hsub : size * size - countTrue
        (setV (List.replicate size (List.replicate size false))
          (walkStart size rng).r (walkStart size rng).c true) ≤ size * size :=
      Nat.sub_le _ _
    have hmul := Nat.mul_le_mul_left (size * size + 1) hsub
    unfold walkMeasure walkFuel
    simp only [List.length_cons, List.length_nil]
    omega
  exact walkLoop_final h2 hstart rng (walkFuel size)
    ⟨List.replicate size (List.replicate size 0),
     setV (List.replicate size (List.replicate size false))
       (walkStart size rng).r (walkStart size rng).c true,
     [walkStart size rng], 2⟩ hinv hmeas

theorem runWalk_conns {size : Nat} (h2 : 2 ≤ size) (w : Bool) (rng : Nat → Nat) :
    ShapedM size (runWalk w size rng).connections ∧
    Recip size w (runWalk w size rng).connections ∧
    ∀ p, inRange size p →
      getC (runWalk w size rng).connections p.r p.c ≠ 0 ∧
      getC (runWalk w size rng).connections p.r p.c < 16 ∧
      GReach size w (runWalk w size rng).connections (walkStart size rng) p := by
  have hs : 0 < size := by omega
  have hstart := walkStart_inRange hs rng
  obtain ⟨hstk, inv⟩ := runWalk_spec h2 w rng
  have hall : ∀ p, inRange size p → getV (runWalk w size rng).visited p.r p.c = true := by
    refine visited_closed_all (w := w) hstart inv.start_visited ?_
    intro p hp hv d hok
    exact inv.popped_closed p hp hv (by rw [hstk]; exact List.not_mem_nil p) d hok
  refine ⟨inv.shape_conns, inv.recip, fun p hp => ⟨?_, inv.mask_lt p hp,
    inv.visited_reach p hp (hall p hp)⟩⟩
  by_cases hne : p = walkStart size rng
  · subst hne
    rcases inv.start_mask with h | ⟨habs, _⟩
    · exact h
    · rw [hstk] at habs
      exact List.noConfusion habs
  · exact inv.mask_nonzero p hp hne (hall p hp)

theorem natMod_cell_inRange {size : Nat} (hs : 0 < size) (a b : Nat) :
    inRange size ⟨((a % size : Nat) : Int), ((b % size : Nat) : Int)⟩ := by
  have hm0 : a % size < size := Nat.mod_lt _ hs
  have hm1 : b % size < size := Nat.mod_lt _ hs
  refine ⟨Int.natCast_nonneg _, ?_, Int.natCast_nonneg _, ?_⟩
  · show ((a % size : Nat) : Int) < (size : Int)
    exact_mod_cast hm0
  · show ((b % size : Nat) : Int) < (size : Int)
    exact_mod_cast hm1

theorem connsOk_addEdge {size : Nat} {w : Bool} {start : Coords}
    {conns : List (List Nat)} (h2 : 2 ≤ size) (hok : ConnsOk size w start conns)
    {p : Coords} (hp : inRange size p) {d : Dir}
    (hd : topoOk w size (topoNext w size p d)) :
    ConnsOk size w start (addEdge conns p (topoNext w size p d) d) := by
  have hs : 0 < size := by omega
  obtain ⟨hsh, hrec, hall⟩ := hok
  have hqin : inRange size (topoNext w size p d) := inRange_topoNext hs d hd
  have hqp : topoNext w size p d ≠ p := topoNext_ne h2 hp d
  refine ⟨shapedM_addEdge hsh hp hqin d, recip_addEdge h2 hsh hrec hp d hd, ?_⟩
  intro x hx
  obtain ⟨hnz, hlt, hre⟩ := hall x hx
  exact ⟨mask_nonzero_addEdge hsh hp hqin hqp hx d hnz,
    mask_lt_addEdge hsh hp hqin hqp d (fun y hy => (hall y hy).2.1) x hx,
    GReach_addEdge_mono hsh hp hqin hqp d hre⟩

theorem densifyRound_preserves {size : Nat} {w : Bool} {start : Coords}
    (h2 : 2 ≤ size) (rng : Nat → Nat) {conns : List (List Nat)} {i : Nat}
    (hok : ConnsOk size w start conns) :
    ConnsOk size w start (densifyRound w size rng conns i).1 := by
  have hs : 0 < size := by omega
  simp only [densifyRound]
  split
  · exact hok
  · split
    · next htopo => exact connsOk_addEdge h2 hok (natMod_cell_inRange hs _ _) htopo
    · exact hok

theorem densifyLoop_preserves {size : Nat} {w : Bool} {start : Coords}
    (h2 : 2 ≤ size) (rng : Nat → Nat) :
    ∀ (n : Nat) (st : List (List Nat) × Nat), ConnsOk size w start st.1 →
      ConnsOk size w start (densifyLoop w size rng n st).1 := by
  intro n
  induction n with
  | zero => exact fun st h => h
  | succ n ih => exact fun st h => ih _ (densifyRound_preserves h2 rng h)

theorem genConns_ok {size : Nat} (h2 : 2 ≤ size) (w : Bool) (rng : Nat → Nat) :
    ConnsOk size w (walkStart size rng) (genConns size w rng) := by
  obtain ⟨hsh, hrec, hall⟩ := runWalk_conns h2 w rng
  exact densifyLoop_preserves h2 rng (extraConnections size)
    ((runWalk w size rng).connections, (runWalk w size rng).idx) ⟨hsh, hrec, hall⟩

/-- C6: reciprocity of the generated masks. For every grid side length of at
least 2 (covering all supported sizes), both wrap modes and every outcome of
the random draws, the connection matrix produced by `generateGrid`'s spanning
walk followed by densification satisfies: a cell's mask has the bit toward a
direction set iff the topological neighbor in that direction passes the
bounds guard and its mask has the opposite bit set. -/
theorem generated_masks_reciprocal (size : Nat) (w : Bool) (rng : Nat → Nat)
    (h2 : 2 ≤ size) : Recip size w (genConns size w rng) :=
  (genConns_ok h2 w rng).2.1

/-- Closed witness for `generated_masks_reciprocal`. -/
theorem generated_masks_reciprocal_witness :
    Recip 5 false (genConns 5 false (fun k => k)) :=
  generated_masks_reciprocal 5 false (fun k => k) (by decide)

/-! ### From masks to tiles: typing recovers the mask -/

theorem mask_recover {m : Nat} (h0 : m ≠ 0) (h16 : m < 16) :
    (TILE_CONNECTIONS (typeOfMask m)).getD (rotOfMask (typeOfMask m) m) 0 = m := by
  interval_cases m
  · exact absurd rfl h0
  all_goals rfl

theorem getD_map {α β : Type} (f : α → β) {l : List α} {i : Nat} (h : i < l.length)
    (d : α) (db : β) : (l.map f).getD i db = f (l.getD i d) := by
  rw [List.getD_eq_getElem?_getD, List.getElem?_map, List.getElem?_eq_getElem h,
    List.getD_eq_getElem?_getD, List.getElem?_eq_getElem h]
  rfl

theorem shapedM_map {α β : Type} {size : Nat} {m : List (List α)} (h : ShapedM size m)
    (f : α → β) : ShapedM size (m.map fun row => row.map f) := by
  refine ⟨by simpa using h.1, ?_⟩
  intro row hrow
  obtain ⟨r0, hr0, heq⟩ := List.mem_map.mp hrow
  rw [← heq, List.length_map]
  exact h.2 r0 hr0

theorem getM_map {α β : Type} {size : Nat} {m : List (List α)} (h : ShapedM size m)
    {p : Coords} (hp : inRange size p) (f : α → β) (d : α) (db : β) :
    getM (m.map fun row => row.map f) db p.r p.c = f (getM m d p.r p.c) := by
  obtain ⟨h1, h2, h3, h4⟩ := hp
  have hrn : p.r.toNat < m.length := by rw [h.1]; omega
  have hcn : p.c.toNat < (m.getD p.r.toNat []).length := by
    rw [rowLength_of_shaped h (show p.r.toNat < size by omega)]
    omega
  show ((m.map fun row => row.map f).getD p.r.toNat []).getD p.c.toNat db = _
  rw [getD_map (fun row => row.map f) hrn [] [], getD_map f hcn d db]
  rfl

theorem shapedM_solvedGridOf {size : Nat} {conns : List (List Nat)}
    (h : ShapedM size conns) : ShapedM size (solvedGridOf conns) :=
  shapedM_map h _

theorem shapedM_solutionOf {size : Nat} {sg : List (List SolvedTile)}
    (h : ShapedM size sg) : ShapedM size (solutionOf sg) :=
  shapedM_map h _

theorem getM_solvedGridOf {size : Nat} {conns : List (List Nat)} (h : ShapedM size conns)
    {p : Coords} (hp : inRange size p) :
    getM (solvedGridOf conns) ⟨.TERMINAL, 0⟩ p.r p.c =
      ⟨typeOfMask (getC conns p.r p.c),
       rotOfMask (typeOfMask (getC conns p.r p.c)) (getC conns p.r p.c)⟩ :=
  getM_map h hp
    (fun conn => (⟨typeOfMask conn, rotOfMask (typeOfMask conn) conn⟩ : SolvedTile))
    0 (⟨.TERMINAL, 0⟩ : SolvedTile)

theorem getC_solutionOf {size : Nat} {conns : List (List Nat)} (h : ShapedM size conns)
    {p : Coords} (hp : inRange size p) :
    getC (solutionOf (solvedGridOf conns)) p.r p.c
      = rotOfMask (typeOfMask (getC conns p.r p.c)) (getC conns p.r p.c) :=
  (getM_map (shapedM_solvedGridOf h) hp (fun st => st.rotation) ⟨.TERMINAL, 0⟩ 0).trans
    (congrArg SolvedTile.rotation (getM_solvedGridOf h hp))

/-! ### The scramble pass, cell by cell -/

theorem scrambleRow_cons (rng : Nat → Nat) (server : Coords) (r c0 : Int) (i : Nat)
    (st : SolvedTile) (rest : List SolvedTile) :
    scrambleRow rng server r c0 i (st :: rest) =
      if server.r = r ∧ server.c = c0 then
        (⟨st.type, st.rotation, false, true⟩ :: (scrambleRow rng server r (c0 + 1) i rest).1,
         (scrambleRow rng server r (c0 + 1) i rest).2)
      else
        (⟨st.type, rng i % 4, false, false⟩ ::
            (scrambleRow rng server r (c0 + 1) (i + 1) rest).1,
         (scrambleRow rng server r (c0 + 1) (i + 1) rest).2) := rfl

theorem scrambleRow_length (rng : Nat → Nat) (server : Coords) (r : Int) :
    ∀ (row : List SolvedTile) (c0 : Int) (i : Nat),
      (scrambleRow rng server r c0 i row).1.length = row.length := by
  intro row
  induction row with
  | nil => intro c0 i; rfl
  | cons st rest ih =>
    intro c0 i
    rw [scrambleRow_cons]
    by_cases hsrv : server.r = r ∧ server.c = c0
    · rw [if_pos hsrv]
      simp [ih]
    · rw [if_neg hsrv]
      simp [ih]

theorem scrambleRow_getD (rng : Nat → Nat) (server : Coords) (r : Int) :
    ∀ (row : List SolvedTile) (c0 : Int) (i : Nat) (j : Nat), j < row.length →
      ∃ rot isSrv,
        (scrambleRow rng server r c0 i row).1.getD j default =
          ⟨(row.getD j ⟨.TERMINAL, 0⟩).type, rot, false, isSrv⟩ ∧
        (isSrv = true ↔ server.r = r ∧ server.c = c0 + (j : Int)) ∧
        (isSrv = true → rot = (row.getD j ⟨.TERMINAL, 0⟩).rotation) := by
  intro row
  induction row with
  | nil => intro c0 i j h; simp at h
  | cons st rest ih =>
    intro c0 i j h
    by_cases hsrv : server.r = r ∧ server.c = c0
    · cases j with
      | zero =>
        refine ⟨st.rotation, true, ?_, ?_, fun _ => rfl⟩
        · rw [scrambleRow_cons, if_pos hsrv]
          rfl
        · constructor
          · intro _
            exact ⟨hsrv.1, by have := hsrv.2; push_cast; omega⟩
          · intro _
            rfl
      | succ j' =>
        obtain ⟨rot, isSrv, hcell, hiff, himp⟩ := ih (c0 + 1) i j' (by simpa using h)
        refine ⟨rot, isSrv, ?_, ?_, ?_⟩
        · rw [scrambleRow_cons, if_pos hsrv, List.getD_cons_succ, List.getD_cons_succ, hcell]
        · rw [hiff]
          constructor
          · rintro ⟨ha, hb⟩
            exact ⟨ha, by push_cast at hb ⊢; omega⟩
          · rintro ⟨ha, hb⟩
            exact ⟨ha, by push_cast at hb ⊢; omega⟩
        · intro hS
          rw [List.getD_cons_succ]
          exact himp hS
    · cases j with
      | zero =>
        refine ⟨rng i % 4, false, ?_, ?_, fun hS => Bool.noConfusion hS⟩
        · rw [scrambleRow_cons, if_neg hsrv]
          rfl
        · constructor
          · intro hS
            exact Bool.noConfusion hS
          · rintro ⟨ha, hb⟩
            exact absurd ⟨ha, by push_cast at hb; omega⟩ hsrv
      | succ j' =>
        obtain ⟨rot, isSrv, hcell, hiff, himp⟩ := ih (c0 + 1) (i + 1) j' (by simpa using h)
        refine ⟨rot, isSrv, ?_, ?_, ?_⟩
        · rw [scrambleRow_cons, if_neg hsrv, List.getD_cons_succ, List.getD_cons_succ, hcell]
        · rw [hiff]
          constructor
          · rintro ⟨ha, hb⟩
            exact ⟨ha, by push_cast at hb ⊢; omega⟩
          · rintro ⟨ha, hb⟩
            exact ⟨ha, by push_cast at hb ⊢; omega⟩
        · intro hS
          rw [List.getD_cons_succ]
          exact himp hS

theorem scrambleGrid_cons (rng : Nat → Nat) (server : Coords) (r0 : Int) (i : Nat)
    (row : List SolvedTile) (rest : List (List SolvedTile)) :
    scrambleGrid rng server r0 i (row :: rest) =
      ((scrambleRow rng server r0 0 i row).1 ::
        (scrambleGrid rng server (r0 + 1) (scrambleRow rng server r0 0 i row).2 rest).1,
       (scrambleGrid rng server (r0 + 1) (scrambleRow rng server r0 0 i row).2 rest).2) := rfl

theorem scrambleGrid_length (rng : Nat → Nat) (server : Coords) :
    ∀ (rows : List (List SolvedTile)) (r0 : Int) (i : Nat),
      (scrambleGrid rng server r0 i rows).1.length = rows.length := by
  intro rows
  induction rows with
  | nil => intro r0 i; rfl
  | cons row rest ih =>
    intro r0 i
    rw [scrambleGrid_cons]
    simp [ih]

theorem scrambleGrid_getD (rng : Nat → Nat) (server : Coords) :
    ∀ (rows : List (List SolvedTile)) (r0 : Int) (i : Nat) (k : Nat), k < rows.length →
      ∃ i2, (scrambleGrid rng server r0 i rows).1.getD k [] =
        (scrambleRow rng server (r0 + (k : Int)) 0 i2 (rows.getD k [])).1 := by
  intro rows
  induction rows with
  | nil => intro r0 i k hk; simp at hk
  | cons row rest ih =>
    intro r0 i k hk
    cases k with
    | zero =>
      refine ⟨i, ?_⟩
      rw [scrambleGrid_cons]
      have h0 : r0 + ((0 : Nat) : Int) = r0 := by push_cast; ring
      rw [h0]
      rfl
    | succ k' =>
      obtain ⟨i2, hi2⟩ :=
        ih (r0 + 1) (scrambleRow rng server r0 0 i row).2 k' (by simpa using hk)
      refine ⟨i2, ?_⟩
      rw [scrambleGrid_cons, List.getD_cons_succ, hi2, List.getD_cons_succ]
      have he : r0 + 1 + (k' : Int) = r0 + ((k' + 1 : Nat) : Int) := by push_cast; ring
      rw [he]

theorem shapedM_of_forall_getD {α : Type} {size : Nat} {m : List (List α)}
    (hlen : m.length = size)
    (hrows : ∀ k, k < size → (m.getD k []).length = size) : ShapedM size m := by
  refine ⟨hlen, ?_⟩
  intro row hrow
  obtain ⟨k, hk, heq⟩ := List.mem_iff_getElem.mp hrow
  have hgd : m.getD k [] = row := by
    rw [List.getD_eq_getElem?_getD, List.getElem?_eq_getElem hk]
    exact heq
  rw [← hgd]
  exact hrows k (by omega)

/-! ### The generated quadruple, field by field -/

theorem generateGrid_solution_eq (size : Nat) (w : Bool) (rng : Nat → Nat) :
    (generateGrid size w rng).solution
      = solutionOf (solvedGridOf (genConns size w rng)) := rfl

theorem generateGrid_server_eq (size : Nat) (w : Bool) (rng : Nat → Nat) :
    (generateGrid size w rng).serverCoords = genServer size w rng := rfl

theorem generateGrid_terminals_eq (size : Nat) (w : Bool) (rng : Nat → Nat) :
    (generateGrid size w rng).terminals = terminalsOf 0 (genConns size w rng) := rfl

theorem generateGrid_grid_eq (size : Nat) (w : Bool) (rng : Nat → Nat) :
    (generateGrid size w rng).grid
      = (scrambleGrid rng (genServer size w rng) 0 (genIdx size w rng + 1)
          (solvedGridOf (genConns size w rng))).1 := rfl

theorem serverOf_inRange {size : Nat} (hs : 0 < size) {k : Nat} (hk : k < size * size) :
    inRange size (serverOf size k) := by
  have hdiv : k / size < size := Nat.div_lt_of_lt_mul (by omega)
  have hmod : k % size < size := Nat.mod_lt _ hs
  refine ⟨Int.natCast_nonneg _, ?_, Int.natCast_nonneg _, ?_⟩
  · show ((k / size : Nat) : Int) < (size : Int)
    exact_mod_cast hdiv
  · show ((k % size : Nat) : Int) < (size : Int)
    exact_mod_cast hmod

theorem genServer_inRange {size : Nat} (hs : 0 < size) (w : Bool) (rng : Nat → Nat) :
    inRange size (genServer size w rng) :=
  serverOf_inRange hs (Nat.mod_lt _ (Nat.mul_pos hs hs))

theorem shaped_generateGrid_grid {size : Nat} (h2 : 2 ≤ size) (w : Bool)
    (rng : Nat → Nat) : ShapedM size (generateGrid size w rng).grid := by
  have hconns : ShapedM size (genConns size w rng) := (genConns_ok h2 w rng).1
  have hsg : ShapedM size (solvedGridOf (genConns size w rng)) :=
    shapedM_solvedGridOf hconns
  rw [generateGrid_grid_eq]
  refine shapedM_of_forall_getD ?_ ?_
  · rw [scrambleGrid_length, hsg.1]
  · intro k hk
    obtain ⟨i2, hi2⟩ := scrambleGrid_getD rng (genServer size w rng)
      (solvedGridOf (genConns size w rng)) 0 (genIdx size w rng + 1) k
      (by rw [hsg.1]; exact hk)
    rw [hi2, scrambleRow_length]
    exact rowLength_of_shaped hsg hk

theorem get2d_generateGrid {size : Nat} (h2 : 2 ≤ size) (w : Bool) (rng : Nat → Nat)
    {r c : Nat} (hr : r < size) (hc : c < size) :
    ∃ rot isSrv,
      get2d (generateGrid size w rng).grid (r : Int) (c : Int) =
        ⟨typeOfMask (getC (genConns size w rng) (r : Int) (c : Int)), rot, false, isSrv⟩ ∧
      (isSrv = true ↔ (⟨(r : Int), (c : Int)⟩ : Coords) = genServer size w rng) ∧
      (isSrv = true →
        rot = getC (generateGrid size w rng).solution (r : Int) (c : Int)) := by
  have hconns : ShapedM size (genConns size w rng) := (genConns_ok h2 w rng).1
  have hsg : ShapedM size (solvedGridOf (genConns size w rng)) :=
    shapedM_solvedGridOf hconns
  have hp : inRange size (⟨(r : Int), (c : Int)⟩ : Coords) := by
    refine ⟨Int.natCast_nonneg _, ?_, Int.natCast_nonneg _, ?_⟩
    · show ((r : Nat) : Int) < (size : Int)
      exact_mod_cast hr
    · show ((c : Nat) : Int) < (size : Int)
      exact_mod_cast hc
  obtain ⟨i2, hi2⟩ := scrambleGrid_getD rng (genServer size w rng)
    (solvedGridOf (genConns size w rng)) 0 (genIdx size w rng + 1) r
    (by rw [hsg.1]; exact hr)
  have hrowlen : ((solvedGridOf (genConns size w rng)).getD r []).length = size :=
    rowLength_of_shaped hsg hr
  obtain ⟨rot, isSrv, hcell, hiff, himp⟩ := scrambleRow_getD rng (genServer size w rng)
    (0 + (r : Int)) ((solvedGridOf (genConns size w rng)).getD r []) 0 i2 c
    (by rw [hrowlen]; exact hc)
  have hst : ((solvedGridOf (genConns size w rng)).getD r []).getD c
      (⟨.TERMINAL, 0⟩ : SolvedTile) =
      ⟨typeOfMask (getC (genConns size w rng) (r : Int) (c : Int)),
       rotOfMask (typeOfMask (getC (genConns size w rng) (r : Int) (c : Int)))
         (getC (genConns size w rng) (r : Int) (c : Int))⟩ :=
    getM_solvedGridOf hconns hp
  refine ⟨rot, isSrv, ?_, ?_, ?_⟩
  · show ((generateGrid size w rng).grid.getD ((r : Int)).toNat []).getD
        ((c : Int)).toNat default = _
    rw [Int.toNat_natCast, Int.toNat_natCast, generateGrid_grid_eq, hi2, hcell, hst]
  · rw [hiff]
    constructor
    · rintro ⟨ha, hb⟩
      have hr0 : (genServer size w rng).r = (r : Int) := by omega
      have hc0 : (genServer size w rng).c = (c : Int) := by omega
      have : genServer size w rng = ⟨(r : Int), (c : Int)⟩ := by
        rw [show genServer size w rng
            = ⟨(genServer size w rng).r, (genServer size w rng).c⟩ from rfl, hr0, hc0]
      exact this.symm
    · intro he
      have hr0 : (r : Int) = (genServer size w rng).r := congrArg Coords.r he
      have hc0 : (c : Int) = (genServer size w rng).c := congrArg Coords.c he
      refine ⟨by omega, by omega⟩
  · intro hS
    rw [himp hS, hst, generateGrid_solution_eq]
    have := getC_solutionOf hconns hp
    exact this.symm

/-! ### Forcing the solution rotations -/

theorem applyRotationsRow_length (sol : List (List Nat)) (r : Int) :
    ∀ (c0 : Int) (row : List Tile), (applyRotationsRow sol r c0 row).length = row.length := by
  intro c0 row
  induction row generalizing c0 with
  | nil => rfl
  | cons t rest ih => simp [applyRotationsRow, ih]

theorem applyRotationsGo_length (sol : List (List Nat)) :
    ∀ (r0 : Int) (g : Grid), (applyRotationsGo sol r0 g).length = g.length := by
  intro r0 g
  induction g generalizing r0 with
  | nil => rfl
  | cons row rest ih => simp [applyRotationsGo, ih]

theorem applyRotationsRow_getD (sol : List (List Nat)) (r : Int) :
    ∀ (row : List Tile) (c0 : Int) (j : Nat), j < row.length →
      (applyRotationsRow sol r c0 row).getD j default =
        { row.getD j default with rotation := getC sol r (c0 + (j : Int)) } := by
  intro row
  induction row with
  | nil => intro c0 j h; simp at h
  | cons t rest ih =>
    intro c0 j h
    cases j with
    | zero => simp [applyRotationsRow]
    | succ j' =>
      show (applyRotationsRow sol r (c0 + 1) rest).getD j' default = _
      rw [ih (c0 + 1) j' (by simpa using h)]
      have he : c0 + 1 + (j' : Int) = c0 + ((j' + 1 : Nat) : Int) := by push_cast; ring
      rw [he]
      rfl

theorem applyRotationsGo_getD (sol : List (List Nat)) :
    ∀ (g : Grid) (r0 : Int) (i : Nat), i < g.length →
      (applyRotationsGo sol r0 g).getD i [] = applyRotationsRow sol (r0 + i) 0 (g.getD i []) := by
  intro g
  induction g with
  | nil => intro r0 i h; simp at h
  | cons row rest ih =>
    intro r0 i h
    cases i with
    | zero => simp [applyRotationsGo]
    | succ i' =>
      show (applyRotationsGo sol (r0 + 1) rest).getD i' [] = _
      rw [ih (r0 + 1) i' (by simpa using h)]
      have he : r0 + 1 + (i' : Int) = r0 + ((i' + 1 : Nat) : Int) := by push_cast; ring
      rw [he]
      rfl

theorem get2d_applyRotations (sol : List (List Nat)) (g : Grid) (r c : Nat)
    (hr : r < g.length) (hc : c < (g.getD r []).length) :
    get2d (applyRotations g sol) (r : Int) (c : Int) =
      { get2d g (r : Int) (c : Int) with rotation := getC sol (r : Int) (c : Int) } := by
  show ((applyRotationsGo sol 0 g).getD r []).getD c default = _
  rw [applyRotationsGo_getD sol g 0 r hr, applyRotationsRow_getD sol _ _ 0 c hc]
  have h0 : (0 : Int) + (r : Int) = (r : Int) := by ring
  have h1 : (0 : Int) + (c : Int) = (c : Int) := by ring
  rw [h0, h1]
  rfl

theorem applyRotations_row_length (sol : List (List Nat)) (g : Grid) {r : Nat}
    (hr : r < g.length) :
    ((applyRotations g sol).getD r []).length = (g.getD r []).length := by
  show ((applyRotationsGo sol 0 g).getD r []).length = _
  rw [applyRotationsGo_getD sol g 0 r hr, applyRotationsRow_length]

theorem applyRotationsNSRow_length (sol : List (List Nat)) (r : Int) :
    ∀ (c0 : Int) (row : List Tile), (applyRotationsNSRow sol r c0 row).length = row.length := by
  intro c0 row
  induction row generalizing c0 with
  | nil => rfl
  | cons t rest ih => simp [applyRotationsNSRow, ih]

theorem applyRotationsNSGo_length (sol : List (List Nat)) :
    ∀ (r0 : Int) (g : Grid), (applyRotationsNSGo sol r0 g).length = g.length := by
  intro r0 g
  induction g generalizing r0 with
  | nil => rfl
  | cons row rest ih => simp [applyRotationsNSGo, ih]

theorem applyRotationsNSRow_getD (sol : List (List Nat)) (r : Int) :
    ∀ (row : List Tile) (c0 : Int) (j : Nat), j < row.length →
      (applyRotationsNSRow sol r c0 row).getD j default =
        (if (row.getD j default).isServer then row.getD j default
         else { row.getD j default with rotation := getC sol r (c0 + (j : Int)) }) := by
  intro row
  induction row with
  | nil => intro c0 j h; simp at h
  | cons t rest ih =>
    intro c0 j h
    cases j with
    | zero => simp [applyRotationsNSRow]
    | succ j' =>
      show (applyRotationsNSRow sol r (c0 + 1) rest).getD j' default = _
      rw [ih (c0 + 1) j' (by simpa using h)]
      have he : c0 + 1 + (j' : Int) = c0 + ((j' + 1 : Nat) : Int) := by push_cast; ring
      rw [he]
      rfl

theorem applyRotationsNSGo_getD (sol : List (List Nat)) :
    ∀ (g : Grid) (r0 : Int) (i : Nat), i < g.length →
      (applyRotationsNSGo sol r0 g).getD i []
        = applyRotationsNSRow sol (r0 + i) 0 (g.getD i []) := by
  intro g
  induction g with
  | nil => intro r0 i h; simp at h
  | cons row rest ih =>
    intro r0 i h
    cases i with
    | zero => simp [applyRotationsNSGo]
    | succ i' =>
      show (applyRotationsNSGo sol (r0 + 1) rest).getD i' [] = _
      rw [ih (r0 + 1) i' (by simpa using h)]
      have he : r0 + 1 + (i' : Int) = r0 + ((i' + 1 : Nat) : Int) := by push_cast; ring
      rw [he]
      rfl

theorem get2d_applyRotationsNS (sol : List (List Nat)) (g : Grid) (r c : Nat)
    (hr : r < g.length) (hc : c < (g.getD r []).length) :
    get2d (applyRotationsNS g sol) (r : Int) (c : Int) =
      (if (get2d g (r : Int) (c : Int)).isServer then get2d g (r : Int) (c : Int)
       else { get2d g (r : Int) (c : Int) with rotation := getC sol (r : Int) (c : Int) }) := by
  show ((applyRotationsNSGo sol 0 g).getD r []).getD c default = _
  rw [applyRotationsNSGo_getD sol g 0 r hr, applyRotationsNSRow_getD sol _ _ 0 c hc]
  have h0 : (0 : Int) + (r : Int) = (r : Int) := by ring
  have h1 : (0 : Int) + (c : Int) = (c : Int) := by ring
  rw [h0, h1]
  rfl

theorem applyRotationsNS_row_length (sol : List (List Nat)) (g : Grid) {r : Nat}
    (hr : r < g.length) :
    ((applyRotationsNS g sol).getD r []).length = (g.getD r []).length := by
  show ((applyRotationsNSGo sol 0 g).getD r []).length = _
  rw [applyRotationsNSGo_getD sol g 0 r hr, applyRotationsNSRow_length]

/-! ### Reachability of the solved configuration -/

theorem GEdge_symm {size : Nat} {w : Bool} {conns : List (List Nat)} (hs : 0 < size)
    (hrec : Recip size w conns) {a b : Coords} (he : GEdge size w conns a b) :
    GEdge size w conns b a := by
  obtain ⟨ha, d, hbit, hok, heq⟩ := he
  subst heq
  have hb : inRange size (topoNext w size a d) := inRange_topoNext hs d hok
  have hpair := (hrec a ha d).mp hbit
  refine ⟨hb, d.opp, hpair.2, ?_, (topoNext_topoNext_opp ha d).symm⟩
  rw [topoNext_topoNext_opp ha d]
  exact Or.inr ha

theorem GReach_symm {size : Nat} {w : Bool} {conns : List (List Nat)} (hs : 0 < size)
    (hrec : Recip size w conns) {a b : Coords} (hr : GReach size w conns a b) :
    GReach size w conns b a :=
  Relation.ReflTransGen.symmetric (fun _ _ he => GEdge_symm hs hrec he) hr

theorem GEdge_MutualStep {size : Nat} {w : Bool} {conns : List (List Nat)} {g : Grid}
    (hs : 0 < size) (hrec : Recip size w conns)
    (hmask : ∀ x, inRange size x → connectionsOf (get2d g x.r x.c) = getC conns x.r x.c)
    {a b : Coords} (he : GEdge size w conns a b) : MutualStep g size w a b := by
  obtain ⟨ha, d, hbit, hok, heq⟩ := he
  subst heq
  have hb : inRange size (topoNext w size a d) := inRange_topoNext hs d hok
  have hpair := (hrec a ha d).mp hbit
  refine ⟨d, ?_, hok, rfl, ?_⟩
  · show hasBit (connectionsOf (get2d g a.r a.c)) d
    rw [hmask a ha]
    exact hbit
  · show hasBit (connectionsOf
        (get2d g (topoNext w size a d).r (topoNext w size a d).c)) d.opp
    rw [hmask _ hb]
    exact hpair.2

theorem solvedGrid_mask {size : Nat} (h2 : 2 ≤ size) (w : Bool) (rng : Nat → Nat)
    {x : Coords} (hx : inRange size x) :
    connectionsOf (get2d (applyRotations (generateGrid size w rng).grid
        (generateGrid size w rng).solution) x.r x.c)
      = getC (genConns size w rng) x.r x.c := by
  obtain ⟨h1, h3, h4, h5⟩ := hx
  have hShG := shaped_generateGrid_grid h2 w rng
  have hre : ((x.r.toNat : Nat) : Int) = x.r := Int.toNat_of_nonneg h1
  have hce : ((x.c.toNat : Nat) : Int) = x.c := Int.toNat_of_nonneg h4
  have hrn : x.r.toNat < size := by omega
  have hcn : x.c.toNat < size := by omega
  have hrn' : x.r.toNat < (generateGrid size w rng).grid.length := by
    rw [hShG.1]
    exact hrn
  have hcn' : x.c.toNat < ((generateGrid size w rng).grid.getD x.r.toNat []).length := by
    rw [rowLength_of_shaped hShG hrn]
    exact hcn
  have happ := get2d_applyRotations (generateGrid size w rng).solution
    (generateGrid size w rng).grid x.r.toNat x.c.toNat hrn' hcn'
  obtain ⟨rot, isSrv, hcell, _, _⟩ := get2d_generateGrid h2 w rng hrn hcn
  have hpr : inRange size (⟨((x.r.toNat : Nat) : Int), ((x.c.toNat : Nat) : Int)⟩ : Coords) := by
    refine ⟨Int.natCast_nonneg _, ?_, Int.natCast_nonneg _, ?_⟩
    · show ((x.r.toNat : Nat) : Int) < (size : Int)
      exact_mod_cast hrn
    · show ((x.c.toNat : Nat) : Int) < (size : Int)
      exact_mod_cast hcn
  obtain ⟨hnz, hlt, _⟩ := (genConns_ok h2 w rng).2.2 _ hpr
  have hsol := getC_solutionOf (genConns_ok h2 w rng).1 hpr
  rw [← hre, ← hce, happ, hcell, generateGrid_solution_eq, hsol]
  exact mask_recover hnz hlt

theorem checkConnectivity_length (g : Grid) (server : Coords) (w : Bool) :
    (checkConnectivity g server w).length = g.length :=
  setConnectedGrid_length _ _ _

theorem checkConnectivity_row_length (g : Grid) (server : Coords) (w : Bool) {r : Nat}
    (hr : r < g.length) :
    ((checkConnectivity g server w).getD r []).length = (g.getD r []).length := by
  show ((setConnectedGrid _ 0 g).getD r []).length = _
  rw [setConnectedGrid_getD _ g 0 r hr, setConnectedRow_length]

theorem flatGrid_mem_exists {g : Grid} {x : Tile} (hx : x ∈ flatGrid g) :
    ∃ (r c : Nat), r < g.length ∧ c < (g.getD r []).length ∧
      x = get2d g (r : Int) (c : Int) := by
  induction g with
  | nil => simp [flatGrid] at hx
  | cons row rest ih =>
    have hx' : x ∈ row ++ flatGrid rest := hx
    rcases List.mem_append.mp hx' with hmem | hmem
    · obtain ⟨c, hc, heq⟩ := List.mem_iff_getElem.mp hmem
      refine ⟨0, c, by simp, by simpa using hc, ?_⟩
      have hgd : row.getD c default = row[c] := by
        rw [List.getD_eq_getElem?_getD, List.getElem?_eq_getElem hc]
        rfl
      show x = row.getD c default
      rw [hgd]
      exact heq.symm
    · obtain ⟨r, c, hrlen, hclen, heq⟩ := ih hmem
      refine ⟨r + 1, c, by simpa using hrlen, ?_, ?_⟩
      · show c < ((row :: rest).getD (r + 1) []).length
        rw [List.getD_cons_succ]
        exact hclen
      · rw [heq]
        rfl

/-- The completeness core shared by the reachability and win claims: on the
grid whose rotations are the recorded solution, the evaluator reaches every
cell from the server. -/
theorem solved_reach {size : Nat} (h2 : 2 ≤ size) (w : Bool) (rng : Nat → Nat)
    {p : Coords} (hp : inRange size p) :
    Reach (applyRotations (generateGrid size w rng).grid (generateGrid size w rng).solution)
      size w (generateGrid size w rng).serverCoords p := by
  have hs : 0 < size := by omega
  have hserver : inRange size (generateGrid size w rng).serverCoords := by
    rw [generateGrid_server_eq]
    exact genServer_inRange hs w rng
  obtain ⟨hsh, hrec, hall⟩ := genConns_ok h2 w rng
  have h1 : GReach size w (genConns size w rng) (walkStart size rng)
      (generateGrid size w rng).serverCoords := (hall _ hserver).2.2
  have h2' : GReach size w (genConns size w rng) (walkStart size rng) p := (hall p hp).2.2
  have h3 : GReach size w (genConns size w rng) (generateGrid size w rng).serverCoords p :=
    Relation.ReflTransGen.trans (GReach_symm hs hrec h1) h2'
  exact Relation.ReflTransGen.mono
    (fun a b he => GEdge_MutualStep hs hrec (fun x hx => solvedGrid_mask h2 w rng hx) he) h3

/-- Cell-level form of reachability completeness at the solution. -/
theorem solved_cell_connected {size : Nat} (h2 : 2 ≤ size) (w : Bool) (rng : Nat → Nat)
    {r c : Nat} (hrs : r < size) (hcs : c < size) :
    (get2d (checkConnectivity
      (applyRotations (generateGrid size w rng).grid (generateGrid size w rng).solution)
      (generateGrid size w rng).serverCoords w) (r : Int) (c : Int)).connected = true := by
  have hs : 0 < size := by omega
  have hShG := shaped_generateGrid_grid h2 w rng
  have hSlen : (applyRotations (generateGrid size w rng).grid
      (generateGrid size w rng).solution).length = size :=
    (applyRotationsGo_length _ _ _).trans hShG.1
  have hrG : r < (generateGrid size w rng).grid.length := by
    rw [hShG.1]
    exact hrs
  have hr : r < (applyRotations (generateGrid size w rng).grid
      (generateGrid size w rng).solution).length := by
    rw [hSlen]
    exact hrs
  have hc : c < ((applyRotations (generateGrid size w rng).grid
      (generateGrid size w rng).solution).getD r []).length := by
    rw [applyRotations_row_length _ _ hrG, rowLength_of_shaped hShG hrs]
    exact hcs
  have hserver : inRange size (generateGrid size w rng).serverCoords := by
    rw [generateGrid_server_eq]
    exact genServer_inRange hs w rng
  have hserver' : inRange (applyRotations (generateGrid size w rng).grid
      (generateGrid size w rng).solution).length (generateGrid size w rng).serverCoords := by
    rw [hSlen]
    exact hserver
  have hiff := checkConnectivity_connected_iff
    (applyRotations (generateGrid size w rng).grid (generateGrid size w rng).solution)
    (generateGrid size w rng).serverCoords w hserver' r c hr hc
  rw [hiff]
  have hp : inRange size (⟨(r : Int), (c : Int)⟩ : Coords) := by
    refine ⟨Int.natCast_nonneg _, ?_, Int.natCast_nonneg _, ?_⟩
    · show ((r : Nat) : Int) < (size : Int)
      exact_mod_cast hrs
    · show ((c : Nat) : Int) < (size : Int)
      exact_mod_cast hcs
  have := solved_reach h2 w rng hp
  rw [hSlen]
  exact this

/-- Every tile of the evaluated solved grid is marked connected. -/
theorem solved_all_connected {size : Nat} (h2 : 2 ≤ size) (w : Bool) (rng : Nat → Nat) :
    ∀ t ∈ flatGrid (checkConnectivity
      (applyRotations (generateGrid size w rng).grid (generateGrid size w rng).solution)
      (generateGrid size w rng).serverCoords w), t.connected = true := by
  have hs : 0 < size := by omega
  have hShG := shaped_generateGrid_grid h2 w rng
  have hSlen : (applyRotations (generateGrid size w rng).grid
      (generateGrid size w rng).solution).length = size :=
    (applyRotationsGo_length _ _ _).trans hShG.1
  intro t ht
  obtain ⟨r, c, hr, hc, heq⟩ := flatGrid_mem_exists ht
  rw [checkConnectivity_length] at hr
  rw [checkConnectivity_row_length _ _ _ hr] at hc
  have hrs : r < size := by rw [hSlen] at hr; exact hr
  have hrG : r < (generateGrid size w rng).grid.length := by
    rw [hShG.1]
    exact hrs
  have hcs : c < size := by
    rw [applyRotations_row_length _ _ hrG, rowLength_of_shaped hShG hrs] at hc
    exact hc
  rw [heq]
  exact solved_cell_connected h2 w rng hrs hcs

/-- C1: reachability completeness. For every supported size (5, 7, 9 or 11),
both wrap modes and every outcome of the random draws, rotating every tile of
the generated grid to its recorded Solution value and running the Connectivity
Evaluator from the server coordinate marks every cell `connected = true`. -/
theorem reachability_completeness (size : Nat) (w : Bool) (rng : Nat → Nat)
    (hsize : size = 5 ∨ size = 7 ∨ size = 9 ∨ size = 11) :
    ∀ t ∈ flatGrid (checkConnectivity
      (applyRotations (generateGrid size w rng).grid (generateGrid size w rng).solution)
      (generateGrid size w rng).serverCoords w), t.connected = true :=
  solved_all_connected (by rcases hsize with h | h | h | h <;> omega) w rng

/-! ### Toward the win verifier at the solution -/

theorem getD_eq_getElem {α : Type} {l : List α} {i : Nat} (h : i < l.length) (d : α) :
    l.getD i d = l[i] := by
  rw [List.getD_eq_getElem?_getD, List.getElem?_eq_getElem h]
  rfl

theorem get2d?_eq_some {g : Grid} {r c : Int} (hr0 : 0 ≤ r) (hrl : r.toNat < g.length)
    (hc0 : 0 ≤ c) (hcl : c.toNat < (g.getD r.toNat []).length) :
    get2d? g r c = some (get2d g r c) := by
  have hrow : g.getD r.toNat [] = g[r.toNat] := getD_eq_getElem hrl []
  have hcl' : c.toNat < g[r.toNat].length := by rwa [hrow] at hcl
  unfold get2d?
  rw [if_neg (by omega), List.getElem?_eq_getElem hrl]
  show g[r.toNat][c.toNat]? = some (get2d g r c)
  rw [List.getElem?_eq_getElem hcl']
  have : get2d g r c = g[r.toNat][c.toNat] := by
    show (g.getD r.toNat []).getD c.toNat default = _
    rw [hrow, getD_eq_getElem hcl']
  rw [this]

theorem terminalsRow_mem {r : Int} :
    ∀ (masks : List Nat) (c0 : Int) {t : Coords}, t ∈ terminalsRow r c0 masks →
      ∃ j : Nat, j < masks.length ∧ t = ⟨r, c0 + (j : Int)⟩ := by
  intro masks
  induction masks with
  | nil => intro c0 t ht; simp [terminalsRow] at ht
  | cons m rest ih =>
    intro c0 t ht
    have ht' : t ∈ (if numConnections m = 1 then [(⟨r, c0⟩ : Coords)] else [])
        ++ terminalsRow r (c0 + 1) rest := ht
    rcases List.mem_append.mp ht' with hl | hr
    · refine ⟨0, by simp, ?_⟩
      have hx : t = ⟨r, c0⟩ := by
        by_cases hm : numConnections m = 1
        · rw [if_pos hm] at hl
          exact List.mem_singleton.mp hl
        · rw [if_neg hm] at hl
          exact absurd hl (List.not_mem_nil t)
      rw [hx]
      have h0 : c0 + ((0 : Nat) : Int) = c0 := by push_cast; ring
      rw [h0]
    · obtain ⟨j, hj, heq⟩ := ih (c0 + 1) hr
      refine ⟨j + 1, by simpa using hj, ?_⟩
      rw [heq]
      have he : c0 + 1 + (j : Int) = c0 + ((j + 1 : Nat) : Int) := by push_cast; ring
      rw [he]

theorem terminalsOf_mem :
    ∀ (rows : List (List Nat)) (r0 : Int) {t : Coords}, t ∈ terminalsOf r0 rows →
      ∃ (k j : Nat), k < rows.length ∧ j < (rows.getD k []).length ∧
        t = ⟨r0 + (k : Int), (j : Int)⟩ := by
  intro rows
  induction rows with
  | nil => intro r0 t ht; simp [terminalsOf] at ht
  | cons row rest ih =>
    intro r0 t ht
    have ht' : t ∈ terminalsRow r0 0 row ++ terminalsOf (r0 + 1) rest := ht
    rcases List.mem_append.mp ht' with hl | hr
    · obtain ⟨j, hj, heq⟩ := terminalsRow_mem row 0 hl
      refine ⟨0, j, by simp, by simpa using hj, ?_⟩
      rw [heq]
      have h0 : r0 + ((0 : Nat) : Int) = r0 := by push_cast; ring
      have h1 : (0 : Int) + (j : Int) = (j : Int) := by ring
      rw [h0, h1]
    · obtain ⟨k, j, hk, hj, heq⟩ := ih (r0 + 1) hr
      refine ⟨k + 1, j, by simpa using hk, ?_, ?_⟩
      · show j < ((row :: rest).getD (k + 1) []).length
        rw [List.getD_cons_succ]
        exact hj
      · rw [heq]
        have he : r0 + 1 + (k : Int) = r0 + ((k + 1 : Nat) : Int) := by push_cast; ring
        rw [he]

/-- Setting every non-server rotation to the solution equals setting every
rotation to the solution, because the generated server tile already carries
its solution rotation. -/
theorem applyRotationsNS_eq {size : Nat} (h2 : 2 ≤ size) (w : Bool) (rng : Nat → Nat) :
    applyRotationsNS (generateGrid size w rng).grid (generateGrid size w rng).solution
      = applyRotations (generateGrid size w rng).grid (generateGrid size w rng).solution := by
  have hShG := shaped_generateGrid_grid h2 w rng
  have hlenNS : (applyRotationsNS (generateGrid size w rng).grid
      (generateGrid size w rng).solution).length = size :=
    (applyRotationsNSGo_length _ _ _).trans hShG.1
  have hlenS : (applyRotations (generateGrid size w rng).grid
      (generateGrid size w rng).solution).length = size :=
    (applyRotationsGo_length _ _ _).trans hShG.1
  apply List.ext_getElem (by rw [hlenNS, hlenS])
  intro i h1 h2'
  have hi : i < size := by rw [hlenNS] at h1; exact h1
  have hiG : i < (generateGrid size w rng).grid.length := by
    rw [hShG.1]
    exact hi
  rw [← getD_eq_getElem h1 [], ← getD_eq_getElem h2' []]
  apply List.ext_getElem
    (by rw [applyRotationsNS_row_length _ _ hiG, applyRotations_row_length _ _ hiG])
  intro j hj1 hj2
  have hjs : j < size := by
    rw [applyRotationsNS_row_length _ _ hiG, rowLength_of_shaped hShG hi] at hj1
    exact hj1
  have hjG : j < ((generateGrid size w rng).grid.getD i []).length := by
    rw [rowLength_of_shaped hShG hi]
    exact hjs
  rw [← getD_eq_getElem hj1 default, ← getD_eq_getElem hj2 default]
  show get2d (applyRotationsNS (generateGrid size w rng).grid
      (generateGrid size w rng).solution) (i : Int) (j : Int)
    = get2d (applyRotations (generateGrid size w rng).grid
      (generateGrid size w rng).solution) (i : Int) (j : Int)
  obtain ⟨rot, isSrv, hcell, hiff, himp⟩ := get2d_generateGrid h2 w rng hi hjs
  rw [get2d_applyRotationsNS _ _ i j hiG hjG, get2d_applyRotations _ _ i j hiG hjG, hcell]
  cases isSrv with
  | false => rfl
  | true =>
    have hrot := himp rfl
    rw [← hrot]
    rfl

/-- Coordinate-level form of `solved_cell_connected`. -/
theorem solved_conn_coords {size : Nat} (h2 : 2 ≤ size) (w : Bool) (rng : Nat → Nat)
    {x : Coords} (hx : inRange size x) :
    (get2d (checkConnectivity
      (applyRotations (generateGrid size w rng).grid (generateGrid size w rng).solution)
      (generateGrid size w rng).serverCoords w) x.r x.c).connected = true := by
  obtain ⟨h1, h3, h4, h5⟩ := hx
  have hre : ((x.r.toNat : Nat) : Int) = x.r := Int.toNat_of_nonneg h1
  have hce : ((x.c.toNat : Nat) : Int) = x.c := Int.toNat_of_nonneg h4
  rw [← hre, ← hce]
  exact solved_cell_connected h2 w rng (by omega) (by omega)

/-- The evaluated solved grid still carries the generated masks. -/
theorem solved_mask_coords {size : Nat} (h2 : 2 ≤ size) (w : Bool) (rng : Nat → Nat)
    {x : Coords} (hx : inRange size x) :
    connectionsOf (get2d (checkConnectivity
      (applyRotations (generateGrid size w rng).grid (generateGrid size w rng).solution)
      (generateGrid size w rng).serverCoords w) x.r x.c)
      = getC (genConns size w rng) x.r x.c :=
  (checkConnectivity_mask_eq _ _ _ x.r x.c).trans (solvedGrid_mask h2 w rng hx)

theorem solved_mask_cell {size : Nat} (h2 : 2 ≤ size) (w : Bool) (rng : Nat → Nat)
    {r c : Nat} (hrs : r < size) (hcs : c < size) :
    connectionsOf (get2d (checkConnectivity
      (applyRotations (generateGrid size w rng).grid (generateGrid size w rng).solution)
      (generateGrid size w rng).serverCoords w) (r : Int) (c : Int))
      = getC (genConns size w rng) (r : Int) (c : Int) := by
  have hp : inRange size (⟨(r : Int), (c : Int)⟩ : Coords) := by
    refine ⟨Int.natCast_nonneg _, ?_, Int.natCast_nonneg _, ?_⟩
    · show ((r : Nat) : Int) < (size : Int)
      exact_mod_cast hrs
    · show ((c : Nat) : Int) < (size : Int)
      exact_mod_cast hcs
  exact @solved_mask_coords size h2 w rng ⟨(r : Int), (c : Int)⟩ hp

theorem solved_noLeakCell {size : Nat} (h2 : 2 ≤ size) (w : Bool) (rng : Nat → Nat)
    {r c : Nat} (hrs : r < size) (hcs : c < size) :
    noLeakCell (checkConnectivity
      (applyRotations (generateGrid size w rng).grid (generateGrid size w rng).solution)
      (generateGrid size w rng).serverCoords w) size w (r : Int) (c : Int) = true := by
  have hs : 0 < size := by omega
  set E := checkConnectivity
    (applyRotations (generateGrid size w rng).grid (generateGrid size w rng).solution)
    (generateGrid size w rng).serverCoords w with hE
  have hp : inRange size (⟨(r : Int), (c : Int)⟩ : Coords) := by
    refine ⟨Int.natCast_nonneg _, ?_, Int.natCast_nonneg _, ?_⟩
    · show ((r : Nat) : Int) < (size : Int)
      exact_mod_cast hrs
    · show ((c : Nat) : Int) < (size : Int)
      exact_mod_cast hcs
  have hconn : (get2d E (r : Int) (c : Int)).connected = true :=
    solved_cell_connected h2 w rng hrs hcs
  unfold noLeakCell
  rw [if_neg (by
    intro hcontra
    rw [hconn] at hcontra
    exact Bool.noConfusion hcontra)]
  refine List.all_eq_true.mpr ?_
  intro d hd
  by_cases hbit : connectionsOf (get2d E (r : Int) (c : Int)) &&& d.mask ≠ 0
  · rw [if_pos hbit]
    rw [solved_mask_cell h2 w rng hrs hcs] at hbit
    have hpair := ((genConns_ok h2 w rng).2.1 ⟨(r : Int), (c : Int)⟩ hp d).mp hbit
    have hq : inRange size (topoNext w size (⟨(r : Int), (c : Int)⟩ : Coords) d) :=
      inRange_topoNext hs d hpair.1
    have hconnq := solved_conn_coords h2 w rng hq
    have hmaskq := solved_mask_coords h2 w rng hq
    rw [if_neg (by
      rintro ⟨hwf, hnin⟩
      subst hwf
      rcases hpair.1 with habs | hin
      · exact Bool.noConfusion habs
      · exact hnin hin)]
    show (if (get2d E (topoNext w size (⟨(r : Int), (c : Int)⟩ : Coords) d).r
          (topoNext w size (⟨(r : Int), (c : Int)⟩ : Coords) d).c).connected = false
        then false
        else decide (connectionsOf (get2d E
            (topoNext w size (⟨(r : Int), (c : Int)⟩ : Coords) d).r
            (topoNext w size (⟨(r : Int), (c : Int)⟩ : Coords) d).c)
          &&& d.opp.mask ≠ 0)) = true
    rw [if_neg (by
      intro hcontra
      rw [hconnq] at hcontra
      exact Bool.noConfusion hcontra)]
    apply decide_eq_true
    rw [hmaskq]
    exact hpair.2
  · rw [if_neg hbit]

theorem solved_noLeakCheck {size : Nat} (h2 : 2 ≤ size) (w : Bool) (rng : Nat → Nat) :
    noLeakCheck (checkConnectivity
      (applyRotations (generateGrid size w rng).grid (generateGrid size w rng).solution)
      (generateGrid size w rng).serverCoords w) size w = true := by
  unfold noLeakCheck
  refine List.all_eq_true.mpr ?_
  intro r hrmem
  refine List.all_eq_true.mpr ?_
  intro c hcmem
  exact solved_noLeakCell h2 w rng (List.mem_range.mp hrmem) (List.mem_range.mp hcmem)

/-- C2: win correctness at the Solution. For every generated grid (side
length at least 2, covering all supported sizes), setting every non-server
tile's rotation to its recorded Solution value (the server already carries
its Solution rotation) and running the Connectivity Evaluator makes the Win
Verifier report a solved game: every terminal is connected (or, with zero
terminals, every cell is), and the no-leak re-check passes. -/
theorem win_at_solution (size : Nat) (w : Bool) (rng : Nat → Nat) (h2 : 2 ≤ size) :
    isWinConditionMet
      (checkConnectivity
        (applyRotationsNS (generateGrid size w rng).grid (generateGrid size w rng).solution)
        (generateGrid size w rng).serverCoords w)
      (generateGrid size w rng).terminals w = true := by
  have hs : 0 < size := by omega
  rw [applyRotationsNS_eq h2 w rng]
  set E := checkConnectivity
    (applyRotations (generateGrid size w rng).grid (generateGrid size w rng).solution)
    (generateGrid size w rng).serverCoords w with hE
  have hShG := shaped_generateGrid_grid h2 w rng
  have hSlen : (applyRotations (generateGrid size w rng).grid
      (generateGrid size w rng).solution).length = size :=
    (applyRotationsGo_length _ _ _).trans hShG.1
  have hElen : E.length = size := (checkConnectivity_length _ _ _).trans hSlen
  have hconns : ShapedM size (genConns size w rng) := (genConns_ok h2 w rng).1
  have hErow : ∀ k : Nat, k < size → (E.getD k []).length = size := by
    intro k hk
    have hkS : k < (applyRotations (generateGrid size w rng).grid
        (generateGrid size w rng).solution).length := by
      rw [hSlen]
      exact hk
    have hkG : k < (generateGrid size w rng).grid.length := by
      rw [hShG.1]
      exact hk
    rw [hE, checkConnectivity_row_length _ _ _ hkS, applyRotations_row_length _ _ hkG,
      rowLength_of_shaped hShG hk]
  simp only [isWinConditionMet]
  rw [Bool.and_eq_true]
  constructor
  · by_cases hterm : (generateGrid size w rng).terminals.length > 0
    · rw [if_pos hterm]
      refine List.all_eq_true.mpr ?_
      intro t ht
      rw [generateGrid_terminals_eq] at ht
      obtain ⟨k, j, hk, hj, heq⟩ := terminalsOf_mem (genConns size w rng) 0 ht
      subst heq
      have hks : k < size := by rw [hconns.1] at hk; exact hk
      have hjs : j < size := by rw [rowLength_of_shaped hconns hks] at hj; exact hj
      have h0 : (0 : Int) + (k : Int) = (k : Int) := by ring
      show (match get2d? E ((0 : Int) + (k : Int)) (j : Int) with
        | some tile => tile.connected
        | none => false) = true
      rw [h0]
      have hkE : ((k : Int)).toNat < E.length := by
        rw [Int.toNat_natCast, hElen]
        exact hks
      have hjE : ((j : Int)).toNat < (E.getD ((k : Int)).toNat []).length := by
        rw [Int.toNat_natCast, Int.toNat_natCast, hErow k hks]
        exact hjs
      rw [get2d?_eq_some (Int.natCast_nonneg _) hkE (Int.natCast_nonneg _) hjE]
      show (get2d E ((k : Int)) ((j : Int))).connected = true
      exact solved_cell_connected h2 w rng hks hjs
    · rw [if_neg hterm]
      refine List.all_eq_true.mpr ?_
      intro t ht
      exact solved_all_connected h2 w rng t ht
  · rw [hElen]
    exact solved_noLeakCheck h2 w rng

/-- Closed witness for `win_at_solution`. -/
theorem win_at_solution_witness :
    isWinConditionMet
      (checkConnectivity
        (applyRotationsNS (generateGrid 5 false (fun _ => 1)).grid
          (generateGrid 5 false (fun _ => 1)).solution)
        (generateGrid 5 false (fun _ => 1)).serverCoords false)
      (generateGrid 5 false (fun _ => 1)).terminals false = true :=
  win_at_solution 5 false (fun _ => 1) (by decide)

/-! ### C4: the hint advisor -/

theorem hintFold_aux (grid : Grid) (solution : List (List Nat)) (server : Coords)
    (w : Bool) (prev : Nat) :
    ∀ (l : List Coords) (acc : Option Coords × Int),
      (l.foldl (fun acc p =>
          if hintGain grid solution server w prev p > acc.2
          then (some p, hintGain grid solution server w prev p) else acc) acc).1 = acc.1 ∨
      ∃ q ∈ l, (l.foldl (fun acc p =>
          if hintGain grid solution server w prev p > acc.2
          then (some p, hintGain grid solution server w prev p) else acc) acc).1 = some q := by
  intro l
  induction l with
  | nil => intro acc; exact Or.inl rfl
  | cons x rest ih =>
    intro acc
    simp only [List.foldl_cons]
    rcases ih (if hintGain grid solution server w prev x > acc.2
        then (some x, hintGain grid solution server w prev x) else acc) with h | ⟨q, hq, heq⟩
    · by_cases hg : hintGain grid solution server w prev x > acc.2
      · refine Or.inr ⟨x, List.mem_cons_self _ _, ?_⟩
        rw [if_pos hg]
        rw [if_pos hg] at h
        exact h
      · refine Or.inl ?_
        rw [if_neg hg]
        rw [if_neg hg] at h
        exact h
    · exact Or.inr ⟨q, List.mem_cons_of_mem _ hq, heq⟩

theorem bestHintFold_cases (grid : Grid) (solution : List (List Nat)) (server : Coords)
    (w : Bool) (prev : Nat) (l : List Coords) :
    (bestHintFold grid solution server w prev l).1 = none ∨
    ∃ q ∈ l, (bestHintFold grid solution server w prev l).1 = some q :=
  hintFold_aux grid solution server w prev l (none, -1)

/-- C4 (amended): hint termination. Whenever at least one non-server tile's
rotation differs from its Solution value, the hint operation returns the
coordinate of such an incorrect tile. (The original claim's second half — that
applying the hint never decreases the connected count — is refuted by
`hint_decreases_connected_count`.) -/
theorem hint_returns_incorrect (grid : Grid) (solution : List (List Nat)) (gridSize : Nat)
    (server : Coords) (w : Bool)
    (hne : incorrectTilesOf grid solution gridSize ≠ []) :
    ∃ p, hintTarget grid solution gridSize server w = some p ∧
      p ∈ incorrectTilesOf grid solution gridSize := by
  have hc1 : ¬((incorrectTilesOf grid solution gridSize).isEmpty = true) := by
    intro h
    exact hne (List.isEmpty_iff.mp h)
  by_cases hbest : (bestHintFold grid solution server w (countConnected grid)
      (incorrectTilesOf grid solution gridSize)).1 = none ∨
      (bestHintFold grid solution server w (countConnected grid)
      (incorrectTilesOf grid solution gridSize)).2 ≤ 0
  · refine ⟨((incorrectTilesOf grid solution gridSize).find?
        (isAdjacentToNetwork grid gridSize w)).getD
        ((incorrectTilesOf grid solution gridSize).getD 0 default), ?_, ?_⟩
    · simp only [hintTarget]
      rw [if_neg hc1, if_pos hbest]
    · cases hfind : (incorrectTilesOf grid solution gridSize).find?
          (isAdjacentToNetwork grid gridSize w) with
      | none => exact getD_mem_self (List.length_pos.mpr hne) default
      | some x => exact List.mem_of_find?_eq_some hfind
  · rcases bestHintFold_cases grid solution server w (countConnected grid)
        (incorrectTilesOf grid solution gridSize) with h0 | ⟨q, hq, heq⟩
    · exact absurd (Or.inl h0) hbest
    · refine ⟨q, ?_, hq⟩
      simp only [hintTarget]
      rw [if_neg hc1, if_neg hbest]
      exact heq

/-- Closed witness for `hint_returns_incorrect`. -/
theorem hint_returns_incorrect_witness :
    incorrectTilesOf [[⟨.TERMINAL, 1, false, false⟩]] [[0]] 1 ≠ [] ∧
    (hintTarget [[⟨.TERMINAL, 1, false, false⟩]] [[0]] 1 ⟨5, 5⟩ false).isSome = true := by
  refine ⟨by decide, ?_⟩
  obtain ⟨p, hp, _⟩ := hint_returns_incorrect [[⟨.TERMINAL, 1, false, false⟩]] [[0]] 1
    ⟨5, 5⟩ false (by decide)
  rw [hp]
  rfl

/-- Counterexample to C4's improvement half: a size-5 bounded game freshly
produced by `generateGrid` on the recorded draw stream reaches a state whose
25 cells are all connected, yet the hint operation selects incorrect tile
(3,3) and applying it (rotating (3,3) to its solution value and re-running the
evaluator) drops the connected count to 24. -/
theorem hint_decreases_connected_count :
    incorrectTilesOf stateC4 genC4.solution 5 ≠ [] ∧
    hintTarget stateC4 genC4.solution 5 genC4.serverCoords false = some ⟨3, 3⟩ ∧
    countConnected stateC4 = 25 ∧
    countConnected (applyHint stateC4 genC4.solution 5 genC4.serverCoords false) = 24 := by
  refine ⟨by decide, by decide, by decide, by decide⟩

/-- Closed witness for `reachability_completeness`. -/
theorem reachability_completeness_witness :
    (get2d (checkConnectivity
      (applyRotations (generateGrid 5 false (fun _ => 0)).grid
        (generateGrid 5 false (fun _ => 0)).solution)
      (generateGrid 5 false (fun _ => 0)).serverCoords false) 0 0).connected = true :=
  reachability_completeness 5 false (fun _ => 0) (Or.inl rfl) _ (by decide)

end Netwalk
